import Mathlib

/-!
Verification development for an excerpt of a 3D content-creation
application.  Each section shallowly embeds one C/C++ component of the
source tree and proves the frozen specification claims about it.

Components embedded below:
* `Spreadsheet`   — `space_spreadsheet.cc` visible-row computation & drawing loops
* `Subsurface`    — `kernel_subsurface.h` integrator stage
* `OffsetMod`     — `MOD_gpenciloffset.c` per-point offset deformation
* `Dyntopo`       — `pbvh_bmesh.c` throttle ratios, topology-update orchestration,
                    and the post-stroke merge/compaction pass
* `CurveDraw`     — `gpencil_curve_draw.c` modal curve drawing tool

Machine floats are modelled by `ℚ` (the claims under test only depend on
ordering and exact clamp arithmetic, never on rounding), machine ints by
`Int`/`Nat` with C truncating division written explicitly as `Int.tdiv`.
-/

/-- 3-vectors of rational coordinates, standing in for `float[3]`. -/
structure V3 where
  x : ℚ
  y : ℚ
  z : ℚ
deriving DecidableEq, Repr

namespace V3

def zero : V3 := ⟨0, 0, 0⟩

/-- `add_v3_v3v3` / componentwise vector addition. -/
def add (a b : V3) : V3 := ⟨a.x + b.x, a.y + b.y, a.z + b.z⟩

/-- `sub_v3_v3v3` componentwise vector subtraction. -/
def sub (a b : V3) : V3 := ⟨a.x - b.x, a.y - b.y, a.z - b.z⟩

/-- `mul_v3_v3fl`: scale a vector by a scalar. -/
def smul (s : ℚ) (a : V3) : V3 := ⟨s * a.x, s * a.y, s * a.z⟩

/-- `add_v3_fl`: add a scalar to every component. -/
def addScalar (a : V3) (s : ℚ) : V3 := ⟨a.x + s, a.y + s, a.z + s⟩

/-- Componentwise multiplication (scale each axis by its own factor). -/
def cmul (a b : V3) : V3 := ⟨a.x * b.x, a.y * b.y, a.z * b.z⟩

end V3

namespace Spreadsheet

/-- Layout constants of the spreadsheet region
(`SpreadsheetLayout` in `space_spreadsheet.cc`); widths/heights are pixel ints. -/
structure SpreadsheetLayout where
  row_height : Int
  title_row_height : Int
  index_column_width : Int

/-- The part of `ARegion` read by the row computation: the region height in pixels. -/
structure ARegion where
  winy : Int

/-- `get_visible_rows` (space_spreadsheet.cc:275-283):
`*r_first_row = -scroll_offset_y / row_height;`
`*r_max_visible_rows = region->winy / row_height + 1;`
C `/` on `int` truncates toward zero, which is `Int.tdiv`. -/
def get_visible_rows (layout : SpreadsheetLayout) (region : ARegion)
    (scroll_offset_y : Int) : Int × Int :=
  (Int.tdiv (-scroll_offset_y) layout.row_height,
   Int.tdiv region.winy layout.row_height + 1)

/-- The sequence of row indices `i` requested by the drawing loops of
`draw_row_indices` / `draw_cell_contents`:
`for (const int i : IndexRange(first_row, max_visible_rows)) {`
`  if (i >= row_indices.size()) break; ... }`. -/
def requested_rows (first_row : Int) (max_visible_rows : Int) (totrows : Int) :
    List Int :=
  (((List.range max_visible_rows.toNat).map (fun k => first_row + (k : Int))).takeWhile
    (fun i => decide (i < totrows)))

end Spreadsheet

namespace Subsurface

/-- `OBJECT_NONE` sentinel object identifier.
Modelled from the spec: the "no intersection" sentinel for the object id
(the defining header is outside this excerpt); the concrete value is the
conventional `-1` sentinel. -/
def OBJECT_NONE : Int := -1

/-- `PRIM_NONE` sentinel primitive identifier.
Modelled from the spec: the "no intersection" sentinel for the primitive id
(the defining header is outside this excerpt). -/
def PRIM_NONE : Int := -1

/-- `PRIMITIVE_NONE` sentinel primitive-type identifier.
Modelled from the spec: the "no intersection" sentinel for the primitive
type (the defining header is outside this excerpt); no type bits set. -/
def PRIMITIVE_NONE : Int := 0

/-- The path's intersection record: `INTEGRATOR_STATE(isect, ...)` fields
written by the subsurface kernel (distance `t`, barycentric `u`,`v`,
geometric normal `Ng`, object/prim/type ids). -/
structure IsectState where
  t : ℚ
  u : ℚ
  v : ℚ
  Ng : V3
  object : Int
  prim : Int
  type : Int
deriving DecidableEq, Repr

/-- The slice of integrator state touched (or readable) by
`kernel_integrate_subsurface`: the path throughput and the intersection
record.  The kernel below writes only these two groups of fields. -/
structure IntegratorState where
  path_throughput : V3
  isect : IsectState
deriving DecidableEq, Repr

/-- `kernel_integrate_subsurface` (kernel_subsurface.h:19-34): reads the
throughput, resets every intersection field to its sentinel, writes the
throughput back unchanged.  No other writes occur. -/
def kernel_integrate_subsurface (s : IntegratorState) : IntegratorState :=
  let throughput := s.path_throughput
  { s with
    isect := { t := 0, u := 0, v := 0, Ng := ⟨0, 0, 0⟩,
               object := OBJECT_NONE, prim := PRIM_NONE, type := PRIMITIVE_NONE }
    path_throughput := throughput }

end Subsurface

namespace OffsetMod

/-- The fields of `OffsetGpencilModifierData` used by `deformPolyline`:
configured location / rotation (Euler angles) / scale vectors. -/
structure OffsetParams where
  loc : V3
  rot : V3
  scale : V3

/-- A sampled stroke point (`bGPDspoint`): position and pressure. -/
structure SPoint where
  co : V3
  pressure : ℚ
deriving DecidableEq, Repr

/-- A 3x3 matrix as three column vectors (Blender stores matrices
column-major: `mat[col][row]`). -/
structure M3 where
  c0 : V3
  c1 : V3
  c2 : V3

/-- Apply a 3x3 matrix (columns `c0 c1 c2`) to a vector. -/
def M3.apply (m : M3) (v : V3) : V3 :=
  (V3.smul v.x m.c0).add ((V3.smul v.y m.c1).add (V3.smul v.z m.c2))

/-- The identity 3x3 matrix. -/
def M3.id : M3 := ⟨⟨1, 0, 0⟩, ⟨0, 1, 0⟩, ⟨0, 0, 1⟩⟩

/-- A 4x4 affine transform: 3x3 linear part plus translation column. -/
structure M4 where
  lin : M3
  tr : V3

/-- `mul_m4_v3`: apply an affine matrix to a position vector. -/
def mul_m4_v3 (m : M4) (v : V3) : V3 := (m.lin.apply v).add m.tr

/-- `eul_to_mat3` XYZ-Euler rotation matrix.
Modelled from the spec: the modifier builds a "composed transform
(rotate-then-scale-then-translate)"; the Euler-to-matrix routine lives in
the application's math library outside this excerpt, so the rotation is
embedded through its trigonometric evaluations `tcos`/`tsin`, supplied as
parameters.  Layout follows the standard XYZ convention (columns of the
composed elementary rotations). -/
def eul_to_mat3 (tcos tsin : ℚ → ℚ) (eul : V3) : M3 :=
  let ci := tcos eul.x
  let cj := tcos eul.y
  let ch := tcos eul.z
  let si := tsin eul.x
  let sj := tsin eul.y
  let sh := tsin eul.z
  let cc := ci * ch
  let cs := ci * sh
  let sc := si * ch
  let ss := si * sh
  ⟨⟨cj * ch, cj * sh, -sj⟩,
   ⟨sj * sc - cs, sj * ss + cc, cj * si⟩,
   ⟨sj * cc + ss, sj * cs - sc, cj * ci⟩⟩

/-- `loc_eul_size_to_mat4`.
Modelled from the spec: build a composed transform
(rotate-then-scale-then-translate): the rotation columns are scaled by the
per-axis size factors and the translation column is `loc`, so a point maps
to `loc + R·(S·p)`. -/
def loc_eul_size_to_mat4 (tcos tsin : ℚ → ℚ) (loc eul size : V3) : M4 :=
  let r := eul_to_mat3 tcos tsin eul
  { lin := ⟨V3.smul size.x r.c0, V3.smul size.y r.c1, V3.smul size.z r.c2⟩
    tr := loc }

/-- The per-point body of `deformPolyline` (MOD_gpenciloffset.c:99-124)
for one stroke point with already-looked-up group weight `weight`:
`if (weight < 0) continue;` then
`mul_v3_v3fl(loc, mmd->loc, weight); mul_v3_v3fl(rot, mmd->rot, weight);`
`mul_v3_v3fl(scale, mmd->scale, weight); add_v3_fl(scale, 1.0);`
`loc_eul_size_to_mat4(mat, loc, rot, scale);`
`unit_scale = (scale[0] + scale[1] + scale[2]) / 3; pt->pressure *= unit_scale;`
`mul_m4_v3(mat, &pt->x);` -/
def deformPolylinePoint (tcos tsin : ℚ → ℚ) (mmd : OffsetParams)
    (weight : ℚ) (pt : SPoint) : SPoint :=
  if weight < 0 then pt
  else
    let loc := V3.smul weight mmd.loc
    let rot := V3.smul weight mmd.rot
    let scale := (V3.smul weight mmd.scale).addScalar 1
    let mat := loc_eul_size_to_mat4 tcos tsin loc rot scale
    let unit_scale := (scale.x + scale.y + scale.z) / 3
    { co := mul_m4_v3 mat pt.co
      pressure := pt.pressure * unit_scale }

/-- `deformPolyline` over the whole stroke: every point is deformed with
its own weight (weights supplied pointwise by the group lookup). -/
def deformPolyline (tcos tsin : ℚ → ℚ) (mmd : OffsetParams)
    (pts : List (SPoint × ℚ)) : List SPoint :=
  pts.map (fun pw => deformPolylinePoint tcos tsin mmd pw.2 pw.1)

end OffsetMod

namespace Dyntopo

/-- `DYNTOPO_MAX_ITER` (pbvh_bmesh.c:65). -/
def DYNTOPO_MAX_ITER : Nat := 4096

/-- The edge-length statistics accumulated in `EdgeQueueContext`
(pbvh_bmesh.c:1157-1160) and initialised at pbvh_bmesh.c:3906-3909:
`.avg_elen = 0.0f, .max_elen = -1e17, .min_elen = 1e17, .totedge = 0.0f`. -/
structure EdgeQueueStats where
  avg_elen : ℚ
  max_elen : ℚ
  min_elen : ℚ
  totedge : ℚ
deriving DecidableEq, Repr

/-- The initial `EdgeQueueContext` statistics (pbvh_bmesh.c:3906-3909). -/
def eqStatsInit : EdgeQueueStats :=
  { avg_elen := 0, max_elen := -(10 ^ 17), min_elen := 10 ^ 17, totedge := 0 }

/-- Statistics update performed by `edge_queue_insert` (pbvh_bmesh.c:1692-1696)
for one admitted edge of length `dis = len_v3v3(e->v1->co, e->v2->co)`:
`avg_elen += dis; max_elen = MAX2(max_elen, dis); min_elen = MIN2(min_elen, dis);`
`totedge += 1.0f;`. -/
def edge_queue_insert_stats (st : EdgeQueueStats) (dis : ℚ) : EdgeQueueStats :=
  { avg_elen := st.avg_elen + dis
    max_elen := max st.max_elen dis
    min_elen := min st.min_elen dis
    totedge := st.totedge + 1 }

/-- Statistics after a queue-creation pass admitting the edges with lengths
`ls` (in admission order), starting from the stats already in the shared
`EdgeQueueContext`. -/
def accumStats (st : EdgeQueueStats) (ls : List ℚ) : EdgeQueueStats :=
  ls.foldl edge_queue_insert_stats st

/-- The `SKINNY_EDGE_FIX` throttle computation of the collapse pass
(pbvh_bmesh.c:3923-3944).  `ratio` is the value the shared local variable
holds on entry (`1.0f` at function start); it is returned unchanged when a
guard fails:
`if (eq_ctx.totedge > 0.0f) { avg_elen /= eq_ctx.totedge;`
`  emax = (max_elen == 0.0f) ? 0.0001f : max_elen;`
`  if (bm_min_edge_len > 0.0f && avg_elen > 0.0f) {`
`    ratio = avg_elen / (bm_min_edge_len*0.5 + emax*0.5);`
`    ratio = MAX2(ratio, 0.25f); ratio = MIN2(ratio, 5.0f); } }`
(the locals `avg_elen` and `emax` are inlined). -/
def collapse_ratio (bm_min_edge_len : ℚ) (st : EdgeQueueStats) (ratio : ℚ) : ℚ :=
  if 0 < st.totedge then
    if 0 < bm_min_edge_len ∧ 0 < st.avg_elen / st.totedge then
      min (max ((st.avg_elen / st.totedge) /
        (bm_min_edge_len * (1 / 2)
          + (if st.max_elen = 0 then 1 / 10000 else st.max_elen) * (1 / 2))) (1 / 4)) 5
    else ratio
  else ratio

/-- The `SKINNY_EDGE_FIX` throttle computation of the subdivision pass
(pbvh_bmesh.c:3963-3982), again falling back to the entering value of the
shared `ratio` local when a guard fails:
`if (eq_ctx.totedge > 0.0f) { avg_elen /= eq_ctx.totedge;`
`  emin = (min_elen == 0.0f) ? 0.0001f : min_elen;`
`  if (avg_elen > 0.0f) {`
`    ratio = (bm_max_edge_len*0.5 + emin*0.5) / avg_elen;`
`    ratio = MAX2(ratio, 0.05f); ratio = MIN2(ratio, 1.0f); } }`
(the locals `avg_elen` and `emin` are inlined). -/
def subdivide_ratio (bm_max_edge_len : ℚ) (st : EdgeQueueStats) (ratio : ℚ) : ℚ :=
  if 0 < st.totedge then
    if 0 < st.avg_elen / st.totedge then
      min (max ((bm_max_edge_len * (1 / 2)
          + (if st.min_elen = 0 then 1 / 10000 else st.min_elen) * (1 / 2)) /
        (st.avg_elen / st.totedge)) (1 / 20)) 1
    else ratio
  else ratio

/-- The requested-operation bitmask `PBVHTopologyUpdateMode` restricted to
its three bits `PBVH_Collapse`, `PBVH_Subdivide`, `PBVH_Cleanup`. -/
structure TopologyMode where
  collapse : Bool
  subdivide : Bool
  cleanup : Bool
deriving DecidableEq, Repr

/-- The `EdgeQueueContext` statistics as they stand after the collapse
block of `BKE_pbvh_bmesh_update_topology`: `short_edge_queue_create` has
accumulated the admitted collapse-candidate edge lengths `collapseEdges`
into the shared `eq_ctx` only when `PBVH_Collapse` was requested. -/
def stats_after_collapse (mode : TopologyMode) (collapseEdges : List ℚ) :
    EdgeQueueStats :=
  if mode.collapse then accumStats eqStatsInit collapseEdges else eqStatsInit

/-- The shared `ratio` local as it stands after the collapse block:
it starts at `1.0f` (pbvh_bmesh.c:3889) and is only reassigned inside the
collapse block's `SKINNY_EDGE_FIX` computation. -/
def ratio_after_collapse (mode : TopologyMode) (bm_min_edge_len : ℚ)
    (collapseEdges : List ℚ) : ℚ :=
  if mode.collapse then
    collapse_ratio bm_min_edge_len (accumStats eqStatsInit collapseEdges) 1
  else 1

/-- The ratio used for `max_steps` in each of the two throttled passes of
one `BKE_pbvh_bmesh_update_topology` call (`none` when the pass is not
requested).  Both the `ratio` local and the edge statistics are *shared*
between the collapse pass and the subdivision pass:
`long_edge_queue_create` keeps accumulating the admitted subdivision
candidates `subdivideEdges` into the same `eq_ctx` the collapse block
already filled. -/
def update_topology_ratios (mode : TopologyMode) (bm_min_edge_len bm_max_edge_len : ℚ)
    (collapseEdges subdivideEdges : List ℚ) : Option ℚ × Option ℚ :=
  ((if mode.collapse then
      some (ratio_after_collapse mode bm_min_edge_len collapseEdges)
    else none),
   (if mode.subdivide then
      some (subdivide_ratio bm_max_edge_len
        (accumStats (stats_after_collapse mode collapseEdges) subdivideEdges)
        (ratio_after_collapse mode bm_min_edge_len collapseEdges))
    else none))

end Dyntopo

namespace Dyntopo

/-- The per-node flags of `PBVHNode` read or written by the
flag-maintenance loops at the end of `BKE_pbvh_bmesh_update_topology`
(pbvh_bmesh.c:4011-4038): `PBVH_Leaf`, `PBVH_UpdateTopology`,
`PBVH_FullyHidden`. -/
structure PNode where
  leaf : Bool
  updateTopology : Bool
  fullyHidden : Bool
deriving DecidableEq, Repr

/-- A leaf the topology passes process: flagged leaf, not fully hidden
(the queue-creation tasks select exactly these, pbvh_bmesh.c:2129-2130,
2227-2228, 3703-3704). -/
def PNode.processed (n : PNode) : Bool :=
  n.leaf && n.updateTopology && !n.fullyHidden

/-- One requested remeshing operation of the entry point. -/
inductive TopoOp where
  | collapse
  | subdivide
  | cleanup
deriving DecidableEq, Repr

/-- The operation sequencing of `BKE_pbvh_bmesh_update_topology`
(pbvh_bmesh.c:3912-3996): `if (mode & PBVH_Collapse) {...}` then
`if (mode & PBVH_Subdivide) {...}` then `if (mode & PBVH_Cleanup) {...}`,
each pass OR-ing its own `modified` result.  The three passes themselves
(`pbvh_bmesh_collapse_short_edges`, `pbvh_bmesh_subdivide_long_edges`,
`cleanup_valence_3_4`) are higher-order parameters: each maps the node
array to (its `modified` flag, the updated node array). -/
def apply_passes (collapsePass subdividePass cleanupPass : List PNode → Bool × List PNode)
    (mode : TopologyMode) (nodes : List PNode) : Bool × List PNode :=
  let s1 := if mode.collapse then collapsePass nodes else (false, nodes)
  let s2 := if mode.subdivide then
      let r := subdividePass s1.2
      (s1.1 || r.1, r.2)
    else s1
  let s3 := if mode.cleanup then
      let r := cleanupPass s2.2
      (s2.1 || r.1, r.2)
    else s2
  s3

/-- The trace of operations actually performed, in program order. -/
def performed_ops (mode : TopologyMode) : List TopoOp :=
  (if mode.collapse then [TopoOp.collapse] else [])
    ++ (if mode.subdivide then [TopoOp.subdivide] else [])
    ++ (if mode.cleanup then [TopoOp.cleanup] else [])

/-- The `modified` branch of the closing loop (pbvh_bmesh.c:4011-4028):
for every leaf flagged `PBVH_UpdateTopology` and not `PBVH_FullyHidden`,
clear the flag and, when `updatePBVH` was requested, run
`pbvh_bmesh_node_limit_ensure` on it (re-splitting it if it is over the
leaf limit).  The returned Bool records whether limit-ensure ran. -/
def clear_flag_modified (updatePBVH : Bool) (n : PNode) : PNode × Bool :=
  if n.leaf && n.updateTopology && !n.fullyHidden then
    ({ n with updateTopology := false }, updatePBVH)
  else (n, false)

/-- The `else` branch (pbvh_bmesh.c:4031-4038): nothing was modified, but
flagged leaves are still unmarked (`// still unmark nodes`, to avoid
infinite re-scheduling); no limit-ensure runs. -/
def clear_flag_unmodified (n : PNode) : PNode × Bool :=
  if n.leaf && n.updateTopology then
    ({ n with updateTopology := false }, false)
  else (n, false)

/-- `BKE_pbvh_bmesh_update_topology` orchestration (pbvh_bmesh.c:3912-4046):
run the requested passes in order, then run the flag-maintenance loop on
the (post-pass) node array.  Returns the trace of operations, the
`modified` result, and the node array paired with a per-node record of
whether `pbvh_bmesh_node_limit_ensure` was invoked on it. -/
def BKE_pbvh_bmesh_update_topology
    (collapsePass subdividePass cleanupPass : List PNode → Bool × List PNode)
    (mode : TopologyMode) (updatePBVH : Bool) (nodes : List PNode) :
    List TopoOp × Bool × List (PNode × Bool) :=
  (performed_ops mode,
   (apply_passes collapsePass subdividePass cleanupPass mode nodes).1,
   if (apply_passes collapsePass subdividePass cleanupPass mode nodes).1 then
     (apply_passes collapsePass subdividePass cleanupPass mode nodes).2.map
       (clear_flag_modified updatePBVH)
   else
     (apply_passes collapsePass subdividePass cleanupPass mode nodes).2.map
       clear_flag_unmodified)

end Dyntopo

namespace Dyntopo

/-- A BMesh vertex as seen by the merge pass: an identity plus its
coordinate (`v->co`). -/
structure BVert where
  vid : Nat
  co : V3
deriving DecidableEq, Repr

/-- A BMesh face as seen by the merge pass: an identity plus its loop
vertices (`f->l_first` cycle). -/
structure BFace where
  fid : Nat
  verts : List BVert
deriving DecidableEq, Repr

/-- `BLI_table_gset_add`: insert-if-absent, preserving insertion order. -/
def gsetAdd {α : Type} [DecidableEq α] (s : List α) (x : α) : List α :=
  if x ∈ s then s else s ++ [x]

/-- Adding a sequence of elements into a `TableGSet` one by one. -/
def gsetAddAll {α : Type} [DecidableEq α] (s : List α) (xs : List α) : List α :=
  xs.foldl gsetAdd s

/-- The `PBVHNode` flag bits manipulated by the merge pass. -/
structure NodeFlags where
  leaf : Bool
  fullyHidden : Bool
  updateRedraw : Bool
  updateBB : Bool
  updateDrawBuffers : Bool
  rebuildDrawBuffers : Bool
  updateOriginalBB : Bool
  updateMask : Bool
  updateVisibility : Bool
  updateColor : Bool
  updateTopology : Bool
  updateNormals : Bool
  updateTris : Bool
deriving DecidableEq, Repr

/-- The flag-OR performed on a merged node (pbvh_bmesh.c:4356-4359):
`node->flag |= PBVH_Leaf | PBVH_UpdateRedraw | PBVH_UpdateBB |`
`PBVH_UpdateDrawBuffers | PBVH_RebuildDrawBuffers | PBVH_UpdateOriginalBB |`
`PBVH_UpdateMask | PBVH_UpdateVisibility | PBVH_UpdateColor |`
`PBVH_UpdateTopology | PBVH_UpdateNormals | PBVH_UpdateTris;` -/
def orDirtyFlags (f : NodeFlags) : NodeFlags :=
  { f with
    leaf := true, updateRedraw := true, updateBB := true,
    updateDrawBuffers := true, rebuildDrawBuffers := true,
    updateOriginalBB := true, updateMask := true, updateVisibility := true,
    updateColor := true, updateTopology := true, updateNormals := true,
    updateTris := true }

/-- All dirty bits of a flag word set (fully dirty). -/
def NodeFlags.fullyDirty (f : NodeFlags) : Prop :=
  f.updateRedraw ∧ f.updateBB ∧ f.updateDrawBuffers ∧ f.rebuildDrawBuffers
    ∧ f.updateOriginalBB ∧ f.updateMask ∧ f.updateVisibility ∧ f.updateColor
    ∧ f.updateTopology ∧ f.updateNormals ∧ f.updateTris

/-- An axis-aligned bounding box (`BB`): componentwise min and max corner. -/
structure BBox where
  bmin : V3
  bmax : V3
deriving DecidableEq, Repr

/-- `FLT_MAX` (exactly `2^128 - 2^104` as a rational). -/
def fltMax : ℚ := 2 ^ 128 - 2 ^ 104

/-- `BB_reset`: the inverted empty box. -/
def BB_reset : BBox :=
  ⟨⟨fltMax, fltMax, fltMax⟩, ⟨-fltMax, -fltMax, -fltMax⟩⟩

/-- `BB_expand`: grow a box to contain one coordinate. -/
def BB_expand (b : BBox) (co : V3) : BBox :=
  ⟨⟨min b.bmin.x co.x, min b.bmin.y co.y, min b.bmin.z co.z⟩,
   ⟨max b.bmax.x co.x, max b.bmax.y co.y, max b.bmax.z co.z⟩⟩

/-- The bounding box spanned by a list of vertices, starting from the
reset (inverted) box. -/
def bbFromVerts (vs : List BVert) : BBox :=
  vs.foldl (fun b v => BB_expand b v.co) BB_reset

/-- The member sets and metadata of one spatial-partition node.  A leaf
owns faces, unique vertices and referenced-only ("other") vertices; an
internal node owns no elements (its sets are empty in this value-level
model, matching the C invariant). -/
structure NodeData where
  flag : NodeFlags
  bm_faces : List BFace
  bm_unique_verts : List BVert
  bm_other_verts : List BVert
  vb : BBox
  orig_vb : BBox
deriving DecidableEq, Repr

/-- The node array of the PBVH restricted to one subtree, in tree form:
`children_offset` child links become constructors.  (The merge pass walks
the array strictly through `children_offset`, so the tree view is the
faithful shape of its recursion.) -/
inductive PBVHTree where
  | leaf (d : NodeData)
  | inner (f : NodeFlags) (l r : PBVHTree)
deriving DecidableEq, Repr

/-- `pbvh_count_subtree_verts` (pbvh_bmesh.c:4274-4290): a leaf's subtree
count is `BLI_table_gset_len(n->bm_faces)`; an inner node sums its two
children. -/
def subtree_tottri : PBVHTree → Nat
  | .leaf d => d.bm_faces.length
  | .inner _ l r => subtree_tottri l + subtree_tottri r

/-- `pbvh_bmesh_join_subnodes` (pbvh_bmesh.c:4292-4334): walk the subtree
(left child first, then right), and for every leaf add its unique verts
into the parent's fresh `bm_unique_verts` gset and its faces into the
parent's fresh `bm_faces` gset (marking the absorbed elements' ownership
tags `DYNTOPO_NODE_NONE` and the absorbed nodes `PBVH_Delete`, neither of
which survives into the merged node's own data). -/
def pbvh_bmesh_join_subnodes : PBVHTree → List BVert × List BFace → List BVert × List BFace
  | .leaf d, acc => (gsetAddAll acc.1 d.bm_unique_verts, gsetAddAll acc.2 d.bm_faces)
  | .inner _ l r, acc => pbvh_bmesh_join_subnodes r (pbvh_bmesh_join_subnodes l acc)

/-- The "other"-vertex rebuild of the merge branch (pbvh_bmesh.c:4366-4381):
scan every loop vertex of every absorbed face and gset-add it to a fresh
`other` set when it is not a unique vertex of the merged node. -/
def rebuild_other_verts (faces : List BFace) (uniq : List BVert) : List BVert :=
  faces.foldl (fun acc f => f.verts.foldl
    (fun a v => if v ∈ uniq then a else gsetAdd a v) acc) []

/-- All faces of a subtree in traversal order (specification-side
collector used to state what the merge absorbs). -/
def subtreeFaces : PBVHTree → List BFace
  | .leaf d => d.bm_faces
  | .inner _ l r => subtreeFaces l ++ subtreeFaces r

/-- All unique vertices of a subtree in traversal order. -/
def subtreeUniqueVerts : PBVHTree → List BVert
  | .leaf d => d.bm_unique_verts
  | .inner _ l r => subtreeUniqueVerts l ++ subtreeUniqueVerts r

/-- The merged leaf built by the merge branch of
`BKE_pbvh_bmesh_corect_tree` (pbvh_bmesh.c:4346-4405): fresh gsets are
joined from both children, `bm_other_verts` is rebuilt from the absorbed
faces, the bounding box is reset and expanded over the unique then the
other vertices, `orig_vb` copies it, and the flag word is OR-ed fully
dirty (including `PBVH_Leaf`). -/
def merged_node (f : NodeFlags) (l r : PBVHTree) : NodeData :=
  let acc := pbvh_bmesh_join_subnodes r (pbvh_bmesh_join_subnodes l ([], []))
  let uniq := acc.1
  let faces := acc.2
  let other := rebuild_other_verts faces uniq
  let vb0 := uniq.foldl (fun b v => BB_expand b v.co) BB_reset
  let vb := other.foldl (fun b v => BB_expand b v.co) vb0
  { flag := orDirtyFlags f
    bm_faces := faces
    bm_unique_verts := uniq
    bm_other_verts := other
    vb := vb
    orig_vb := vb }

/-- `BKE_pbvh_bmesh_corect_tree` (pbvh_bmesh.c:4335-4412).  `isRoot` is
the C condition `node == pbvh->nodes` (the pass is started on the root
with `parent = NULL`).  A leaf returns immediately; a non-root inner node
whose `subtree_tottri` is below `size_lower = leaf_limit - (leaf_limit >> 1)`
is merged into a single leaf; otherwise recursion continues into both
children (which are then non-root). -/
def BKE_pbvh_bmesh_corect_tree (leaf_limit : Nat) (isRoot : Bool) :
    PBVHTree → PBVHTree
  | .leaf d => .leaf d
  | .inner f l r =>
    if subtree_tottri (.inner f l r) < leaf_limit - leaf_limit / 2 ∧ isRoot = false then
      .leaf (merged_node f l r)
    else
      .inner f (BKE_pbvh_bmesh_corect_tree leaf_limit false l)
        (BKE_pbvh_bmesh_corect_tree leaf_limit false r)

/-- `pbvh_bmesh_join_nodes` entry (pbvh_bmesh.c:4414-4422): count the
subtree faces, then run the corrective pass from the root with
`isRoot = true` (the compaction of the flat node array that follows
reindexes storage only and does not change the tree contents). -/
def pbvh_bmesh_join_nodes (leaf_limit : Nat) (t : PBVHTree) : PBVHTree :=
  BKE_pbvh_bmesh_corect_tree leaf_limit true t

end Dyntopo

namespace CurveDraw

/-- `eBezTriple_Handle` values used by the tool:
`HD_FREE = 0`, `HD_AUTO = 1`, `HD_VECT = 2`, `HD_ALIGN = 3`. -/
inductive Handle where
  | free
  | auto
  | vect
  | align
deriving DecidableEq, Repr

/-- One `bGPDcurve_point`: its `BezTriple` handles/anchor (`bezt.vec[0..2]`,
`bezt.h1`, `bezt.h2`), pressure, strength and selection flag.  A fresh
point from `BKE_gpencil_stroke_editcurve_new` is calloc-zeroed, so its
handle types start as `HD_FREE` (= 0). -/
structure CurvePoint where
  h1 : Handle
  h2 : Handle
  vec0 : V3
  vec1 : V3
  vec2 : V3
  pressure : ℚ
  strength : ℚ
  selected : Bool
deriving DecidableEq, Repr

/-- A `bGPDcurve`: flag word plus the control points. -/
structure Curve where
  flag : Int
  points : List CurvePoint
deriving DecidableEq, Repr

/-- A `bGPDstroke` as the tool sees it: its identity in the frame's
listbase (standing in for the pointer), the `GP_STROKE_CYCLIC` bit and
the edit curve.  The sampled polyline `gps->points` is regenerated from
the curve by `BKE_gpencil_stroke_update_geometry_from_editcurve` after
every change and carries no independent state relevant to the claims, so
it is not materialised here. -/
structure Stroke where
  sid : Nat
  cyclic : Bool
  curve : Curve
deriving DecidableEq, Repr

/-- `eGPDcurve_draw_state` (gpencil_curve_draw.c:79-85). -/
inductive DrawState where
  | move
  | set_vector
  | drag_aligned
  | drag_free
  | set_thickness
deriving DecidableEq, Repr

/-- The scalar fields of `tGPDcurve_draw` (gpencil_curve_draw.c:87-120)
that the state machine reads or writes. -/
structure TCD where
  state : DrawState
  imval : Int × Int
  imval_prev : Int × Int
  imval_start : Int × Int
  imval_end : Int × Int
  is_mouse_down : Bool
  is_cyclic : Bool
  prev_pressure : ℚ
deriving DecidableEq, Repr

/-- The mutable world of one tool invocation: the tool state, the active
frame's stroke list (`tcd->gpf->strokes`), the identity of the in-progress
stroke (`tcd->gps`; its edit curve is `tcd->gpc = tcd->gps->editcurve`),
and a fresh-identity allocator standing in for the memory allocator. -/
structure Model where
  tcd : TCD
  frame : List Stroke
  curId : Nat
  nextId : Nat
deriving DecidableEq, Repr

/-- External dependencies of the tool, supplied as parameters:
`unproject` is `gpencil_project_mval_to_v3` (view-state dependent,
gpencil_curve_draw.c:153-172), `recalc` is
`BKE_gpencil_editcurve_recalculate_handles` (external BKE curve code),
`drag_threshold` is `WM_event_drag_threshold(event)`. -/
structure Env where
  unproject : Int × Int → V3
  recalc : Curve → Curve
  drag_threshold : Nat

/-- `BLI_remlink(&tcd->gpf->strokes, gps)`: unlink the identified stroke. -/
def remlink (frame : List Stroke) (sid : Nat) : List Stroke :=
  frame.filter (fun s => s.sid ≠ sid)

/-- The in-progress stroke (`tcd->gps`) looked up in the frame list. -/
def Model.cur (m : Model) : Option Stroke :=
  m.frame.find? (fun s => s.sid == m.curId)

/-- Mutate the in-progress stroke in place (writes through `tcd->gps`). -/
def modifyCur (m : Model) (f : Stroke → Stroke) : Model :=
  { m with frame := m.frame.map (fun s => if s.sid = m.curId then f s else s) }

/-- Mutate the in-progress stroke's edit curve (writes through `tcd->gpc`). -/
def modifyCurve (m : Model) (f : Curve → Curve) : Model :=
  modifyCur m (fun s => { s with curve := f s.curve })

/-- Apply `f` to the last element of a list (the C code addresses
`gpc->curve_points[gpc->tot_curve_points - 1]`). -/
def mapLast {α : Type} (f : α → α) : List α → List α
  | [] => []
  | [a] => [f a]
  | a :: b :: rest => a :: mapLast f (b :: rest)

/-- Mutate the last curve point of the in-progress stroke. -/
def modifyLastPoint (m : Model) (f : CurvePoint → CurvePoint) : Model :=
  modifyCurve m (fun c => { c with points := mapLast f c.points })

/-- The last curve point of the in-progress stroke, if any. -/
def Model.lastPoint (m : Model) : Option CurvePoint :=
  m.cur.bind (fun s => s.curve.points.getLast?)

/-- `gpencil_set_handle_type_last_point` (gpencil_curve_draw.c:233-238):
`cpt->bezt.h1 = cpt->bezt.h2 = type;` on the last point. -/
def gpencil_set_handle_type_last_point (m : Model) (t : Handle) : Model :=
  modifyLastPoint m (fun p => { p with h1 := t, h2 := t })

/-- `gpencil_push_curve_point` (gpencil_curve_draw.c:174-191): grow the
point array by one, `memcpy` the previous last point into the new slot and
set the new point's handle types to `HD_VECT`.  (The stroke-geometry
regeneration that follows touches only the sampled polyline.)  Pushing on
an empty curve would be undefined in C; the tool invariant keeps the curve
non-empty, and the model leaves that case unchanged. -/
def gpencil_push_curve_point (m : Model) : Model :=
  modifyCurve m (fun c =>
    match c.points.getLast? with
    | some lastp => { c with points := c.points ++ [{ lastp with h1 := .vect, h2 := .vect }] }
    | none => c)

/-- `gpencil_pop_curve_point` (gpencil_curve_draw.c:194-230): build a fresh
duplicate stroke (`BKE_gpencil_stroke_duplicate`, same flags) whose new
edit curve holds the first `tot_curve_points - 1` old points and the old
curve's flag; `BLI_remlink` + `BKE_gpencil_free_stroke` the old stroke;
`BLI_addtail` the new stroke into the frame. -/
def gpencil_pop_curve_point (m : Model) : Model :=
  match m.cur with
  | none => m
  | some gps =>
    let newCurve : Curve := { flag := gps.curve.flag, points := gps.curve.points.dropLast }
    let newStroke : Stroke := { sid := m.nextId, cyclic := gps.cyclic, curve := newCurve }
    { m with
      frame := remlink m.frame m.curId ++ [newStroke]
      curId := m.nextId
      nextId := m.nextId + 1 }

/-- Squared integer distance; `len_v2v2_int(a, b) > t` for `t ≥ 0` is
equivalent to `dist2 a b > t²` (both sides nonnegative). -/
def dist2 (a b : Int × Int) : Int :=
  (a.1 - b.1) ^ 2 + (a.2 - b.2) ^ 2

/-- `gpencil_curve_draw_update` (gpencil_curve_draw.c:510-572), restricted
to its effect on the edit curve (the polyline resampling, last-segment
alpha fade and notifier calls touch only derived data):
* `IN_MOVE`: all three `bezt.vec` of the last point follow the unprojected
  cursor, then handles are recalculated.
* `IN_DRAG_ALIGNED_HANDLE`: `vec[0] = (vec[1] - co) + vec[1]`, `vec[2] = co`.
* `IN_DRAG_FREE_HANDLE`: `vec[2] = co`.
* `IN_SET_THICKNESS`: pressure = `prev_pressure + dir * (manhattan/10)`
  clamped below by 0, with `dir = (move[0] > 0) ? 1 : -1`.
* `IN_SET_VECTOR` (default): no curve change. -/
def gpencil_curve_draw_update (env : Env) (m : Model) : Model :=
  match m.tcd.state with
  | .move =>
    let co := env.unproject m.tcd.imval
    let m1 := modifyLastPoint m (fun p => { p with vec0 := co, vec1 := co, vec2 := co })
    modifyCurve m1 env.recalc
  | .set_vector => m
  | .drag_aligned =>
    let co := env.unproject m.tcd.imval
    modifyLastPoint m (fun p => { p with vec0 := (p.vec1.sub co).add p.vec1, vec2 := co })
  | .drag_free =>
    let co := env.unproject m.tcd.imval
    modifyLastPoint m (fun p => { p with vec2 := co })
  | .set_thickness =>
    let mv := (m.tcd.imval.1 - m.tcd.imval_start.1, m.tcd.imval.2 - m.tcd.imval_start.2)
    let dir : Int := if 0 < mv.1 then 1 else -1
    let dist : Int := |mv.1| + |mv.2|
    let dr : ℚ := (dir : ℚ) * ((dist : ℚ) / 10)
    modifyLastPoint m (fun p => { p with pressure := max (m.tcd.prev_pressure + dr) 0 })

/-- `gpencil_curve_draw_confirm` (gpencil_curve_draw.c:574-587): deselect
the last point and recalculate the curve's handles. -/
def gpencil_curve_draw_confirm (env : Env) (m : Model) : Model :=
  let m1 := modifyLastPoint m (fun p => { p with selected := false })
  modifyCurve m1 env.recalc

/-- `gpencil_curve_draw_cancel` (gpencil_curve_draw.c:768-774), the
operator-level cancel callback the window manager invokes: it calls only
`gpencil_curve_draw_exit`, which frees the tool state and sends
notifiers — the frame's stroke list is returned untouched. -/
def gpencil_curve_draw_cancel (m : Model) : List Stroke :=
  m.frame

/-- The modal commands of the tool's modal keymap
(gpencil_curve_draw.c:122-130). -/
inductive ModalCmd where
  | cancel
  | confirm
  | free_handle_on
  | free_handle_off
  | cyclic_toggle
  | delete_last
  | set_thickness
deriving DecidableEq, Repr

/-- The events `gpencil_curve_draw_modal` distinguishes; every event
carries the mouse position `event->mval`. -/
inductive Event where
  | modal (cmd : ModalCmd) (mval : Int × Int)
  | left_press (mval : Int × Int)
  | left_release (mval : Int × Int)
  | mousemove (mval : Int × Int)
  | other (mval : Int × Int)
deriving DecidableEq, Repr

/-- The outcome of one modal call: still running, `OPERATOR_FINISHED`
(frame persisted), or `OPERATOR_CANCELLED` (with the frame list after the
in-progress stroke was removed). -/
inductive ModalResult where
  | running (m : Model)
  | finished (frame : List Stroke)
  | cancelled (frame : List Stroke)
deriving DecidableEq, Repr

/-- The closing `copy_v2_v2_int(tcd->imval_prev, tcd->imval)` of
`gpencil_curve_draw_modal`. -/
def setImvalPrev (m : Model) : Model :=
  { m with tcd := { m.tcd with imval_prev := m.tcd.imval } }

/-- `gpencil_curve_draw_modal` (gpencil_curve_draw.c:633-765), one event. -/
def gpencil_curve_draw_modal (env : Env) (m0 : Model) (ev : Event) : ModalResult :=
  let mval := match ev with
    | .modal _ v => v
    | .left_press v => v
    | .left_release v => v
    | .mousemove v => v
    | .other v => v
  let m : Model := { m0 with tcd := { m0.tcd with imval := mval } }
  match ev with
  | .modal cmd _ =>
    match cmd with
    | .confirm =>
      let m1 := if m.tcd.state = .move then gpencil_pop_curve_point m else m
      let m2 := gpencil_curve_draw_confirm env m1
      .finished m2.frame
    | .cancel =>
      .cancelled (remlink m.frame m.curId)
    | .free_handle_on =>
      let m1 :=
        if m.tcd.state = .drag_aligned then
          gpencil_curve_draw_update env
            (gpencil_set_handle_type_last_point
              { m with tcd := { m.tcd with state := .drag_free } } .free)
        else m
      .running (setImvalPrev m1)
    | .free_handle_off =>
      let m1 :=
        if m.tcd.state = .drag_free then
          gpencil_curve_draw_update env
            (gpencil_set_handle_type_last_point
              { m with tcd := { m.tcd with state := .drag_aligned } } .align)
        else m
      .running (setImvalPrev m1)
    | .cyclic_toggle =>
      let v := !m.tcd.is_cyclic
      let m1 := modifyCur { m with tcd := { m.tcd with is_cyclic := v } }
        (fun s => { s with cyclic := v })
      .running (setImvalPrev (gpencil_curve_draw_update env m1))
    | .delete_last =>
      let m1 :=
        if m.tcd.state = .move then gpencil_pop_curve_point m
        else if m.tcd.state = .drag_aligned ∨ m.tcd.state = .drag_free then
          { m with tcd := { m.tcd with state := .move } }
        else m
      .running (setImvalPrev (gpencil_curve_draw_update env m1))
    | .set_thickness =>
      let m1 :=
        if m.tcd.state ≠ .set_thickness then
          match m.lastPoint with
          | some cpt_last =>
            gpencil_curve_draw_update env
              { m with tcd := { m.tcd with
                  state := .set_thickness
                  prev_pressure := cpt_last.pressure
                  imval_start := m.tcd.imval } }
          | none => m
        else m
      .running (setImvalPrev m1)
  | .left_press _ =>
    let t1 := { m.tcd with imval_start := m.tcd.imval, is_mouse_down := true }
    let t2 :=
      if t1.state = .move then { t1 with state := .set_vector }
      else if t1.state = .set_thickness then { t1 with state := .move }
      else t1
    .running (setImvalPrev { m with tcd := t2 })
  | .left_release _ =>
    let t1 := { m.tcd with imval_end := m.tcd.imval, is_mouse_down := false }
    let m1 : Model := { m with tcd := t1 }
    let m2 :=
      if t1.state = .set_vector ∨ t1.state = .drag_aligned ∨ t1.state = .drag_free then
        gpencil_push_curve_point { m1 with tcd := { t1 with state := .move } }
      else m1
    .running (setImvalPrev (gpencil_curve_draw_update env m2))
  | .mousemove _ =>
    let m1 :=
      if m.tcd.state = .set_vector
          ∧ (env.drag_threshold : Int) ^ 2 < dist2 m.tcd.imval m.tcd.imval_start then
        gpencil_set_handle_type_last_point
          { m with tcd := { m.tcd with state := .drag_aligned } } .align
      else m
    .running (setImvalPrev (gpencil_curve_draw_update env m1))
  | .other _ =>
    .running (setImvalPrev m)

/-- `gpencil_curve_draw_init` (gpencil_curve_draw.c:404-508): allocate the
tool state (calloc: `imval_start`/`imval_end` zero, not cyclic), set
`state = IN_SET_VECTOR`, record whether the invoking event was a press,
create the one-point stroke at the unprojected initial cursor position
(pressure and strength 1), `BLI_addtail` it into the active frame, and
create the matching one-point edit curve with all three `bezt.vec` at that
position.  The closing `gpencil_curve_draw_update` call runs in
`IN_SET_VECTOR` and leaves the curve unchanged.  `nid` is the fresh
identity for the new stroke. -/
def gpencil_curve_draw_init (env : Env) (pre : List Stroke) (nid : Nat)
    (mval : Int × Int) (pressed : Bool) : Model :=
  let first_pt := env.unproject mval
  let cpt : CurvePoint :=
    { h1 := .free, h2 := .free, vec0 := first_pt, vec1 := first_pt,
      vec2 := first_pt, pressure := 1, strength := 1, selected := false }
  let gps : Stroke := { sid := nid, cyclic := false, curve := { flag := 0, points := [cpt] } }
  { tcd :=
      { state := .set_vector, imval := mval, imval_prev := mval,
        imval_start := (0, 0), imval_end := (0, 0), is_mouse_down := pressed,
        is_cyclic := false, prev_pressure := 0 }
    frame := pre ++ [gps]
    curId := nid
    nextId := nid + 1 }

/-- Run a sequence of events through the modal handler, stopping at the
first terminal (`finished`/`cancelled`) result. -/
def runEvents (env : Env) : Model → List Event → ModalResult
  | m, [] => .running m
  | m, ev :: evs =>
    match gpencil_curve_draw_modal env m ev with
    | .running m' => runEvents env m' evs
    | r => r

/-- The tool's standing relationship to the frame it draws into: the
frame holds exactly the strokes `pre` that existed before invocation plus
the one in-progress stroke at the tail, the in-progress identity is below
the allocator's next fresh identity, and every pre-existing stroke's
identity is below the in-progress one (so fresh identities never collide
with `pre`). -/
def FrameInv (pre : List Stroke) (m : Model) : Prop :=
  ∃ cur, m.frame = pre ++ [cur] ∧ cur.sid = m.curId ∧ m.curId < m.nextId
    ∧ ∀ s ∈ pre, s.sid < m.curId

/-- Extraction used to state counterexamples: the curve point count of the
single stroke of a `finished` frame. -/
def finished_single_curve_len : ModalResult → Option Nat
  | .finished [s] => some s.curve.points.length
  | _ => none

end CurveDraw

open Spreadsheet Subsurface OffsetMod Dyntopo CurveDraw

/-- C7: with row height 20 and region height 500 the spreadsheet requests
`floor(500/20) + 1 = 26` rows for drawing at every scroll offset, the
first requested row index is 0 at scroll offset 0 and 2 at scroll offset
-40, and the drawing loops never request a row index at or beyond the
total row count. -/
theorem spreadsheet_visible_rows_spec
    (layout : SpreadsheetLayout) (region : Spreadsheet.ARegion)
    (hrow : layout.row_height = 20) (hwin : region.winy = 500) :
    (∀ scroll : Int, (get_visible_rows layout region scroll).2 = 26)
    ∧ (get_visible_rows layout region 0).1 = 0
    ∧ (get_visible_rows layout region (-40)).1 = 2
    ∧ ∀ (first_row max_rows totrows i : Int),
        i ∈ requested_rows first_row max_rows totrows → i < totrows := by
  refine ⟨fun scroll => ?_, ?_, ?_, fun first_row max_rows totrows i hi => ?_⟩
  · simp only [get_visible_rows, hrow, hwin]
    decide
  · simp only [get_visible_rows, hrow]
    decide
  · simp only [get_visible_rows, hrow]
    decide
  · have := List.mem_takeWhile_imp hi
    exact of_decide_eq_true this

/-- Witness for C7: the theorem applied to the concrete demo layout
(row height 20, title row 30, index column 100) in a 500-pixel region. -/
theorem spreadsheet_visible_rows_spec_witness :
    (get_visible_rows ⟨20, 30, 100⟩ ⟨500⟩ (-40)).1 = 2 ∧
    (get_visible_rows ⟨20, 30, 100⟩ ⟨500⟩ 0).2 = 26 :=
  ⟨(spreadsheet_visible_rows_spec ⟨20, 30, 100⟩ ⟨500⟩ rfl rfl).2.2.1,
   (spreadsheet_visible_rows_spec ⟨20, 30, 100⟩ ⟨500⟩ rfl rfl).1 0⟩

/-- C8: for every input state, the subsurface integration step resets
every field of the path's intersection record to its no-intersection
sentinel, writes the path throughput back unchanged, and performs no
other state writes (the resulting state is fully determined by these two
writes). -/
theorem kernel_integrate_subsurface_resets_isect (s : IntegratorState) :
    (kernel_integrate_subsurface s).isect.t = 0
    ∧ (kernel_integrate_subsurface s).isect.u = 0
    ∧ (kernel_integrate_subsurface s).isect.v = 0
    ∧ (kernel_integrate_subsurface s).isect.Ng = ⟨0, 0, 0⟩
    ∧ (kernel_integrate_subsurface s).isect.object = OBJECT_NONE
    ∧ (kernel_integrate_subsurface s).isect.prim = PRIM_NONE
    ∧ (kernel_integrate_subsurface s).isect.type = PRIMITIVE_NONE
    ∧ (kernel_integrate_subsurface s).path_throughput = s.path_throughput
    ∧ kernel_integrate_subsurface s =
        { path_throughput := s.path_throughput,
          isect := { t := 0, u := 0, v := 0, Ng := ⟨0, 0, 0⟩,
                     object := OBJECT_NONE, prim := PRIM_NONE,
                     type := PRIMITIVE_NONE } } := by
  simp [kernel_integrate_subsurface]

/-- C6: for every stroke point processed by the offset deformer with a
non-negative group weight `w`, the per-axis scale factor baked into the
applied transform is `1 + w*configuredScale`, the point's pressure is
multiplied by the mean of the three per-axis scale factors, weight 0
leaves the point entirely unchanged (given that the rotation of a zero
Euler angle is the identity, i.e. `cos 0 = 1`, `sin 0 = 0`), and weight 1
yields the full configured scale. -/
theorem deformPolyline_weight_semantics (tcos tsin : ℚ → ℚ)
    (mmd : OffsetParams) (w : ℚ) (pt : SPoint) (hw : 0 ≤ w) :
    (deformPolylinePoint tcos tsin mmd w pt).pressure =
        pt.pressure * (((1 + w * mmd.scale.x) + (1 + w * mmd.scale.y)
          + (1 + w * mmd.scale.z)) / 3)
    ∧ (V3.smul w mmd.scale).addScalar 1 =
        ⟨1 + w * mmd.scale.x, 1 + w * mmd.scale.y, 1 + w * mmd.scale.z⟩
    ∧ (deformPolylinePoint tcos tsin mmd w pt).co =
        mul_m4_v3 (loc_eul_size_to_mat4 tcos tsin (V3.smul w mmd.loc)
          (V3.smul w mmd.rot)
          ⟨1 + w * mmd.scale.x, 1 + w * mmd.scale.y, 1 + w * mmd.scale.z⟩) pt.co
    ∧ (w = 0 → tcos 0 = 1 → tsin 0 = 0 →
        deformPolylinePoint tcos tsin mmd w pt = pt)
    ∧ (w = 1 → (V3.smul w mmd.scale).addScalar 1 =
        (V3.addScalar mmd.scale 1)) := by
  have hnot : ¬ w < 0 := not_lt.mpr hw
  have hscale : (V3.smul w mmd.scale).addScalar 1 =
      ⟨1 + w * mmd.scale.x, 1 + w * mmd.scale.y, 1 + w * mmd.scale.z⟩ := by
    simp only [V3.smul, V3.addScalar, V3.mk.injEq]
    exact ⟨by ring, by ring, by ring⟩
  refine ⟨?_, hscale, ?_, ?_, ?_⟩
  · unfold deformPolylinePoint
    rw [if_neg hnot]
    dsimp only [V3.smul, V3.addScalar]
    ring
  · unfold deformPolylinePoint
    rw [if_neg hnot]
    dsimp only
    rw [hscale]
  · intro h0 hc hs
    subst h0
    unfold deformPolylinePoint
    rw [if_neg hnot]
    cases pt with
    | mk co pressure =>
      cases co with
      | mk cx cy cz =>
        simp [V3.smul, V3.addScalar, loc_eul_size_to_mat4, eul_to_mat3,
          mul_m4_v3, M3.apply, V3.add, zero_mul, hc, hs,
          SPoint.mk.injEq, V3.mk.injEq]
        norm_num
  · intro h1
    subst h1
    rw [hscale]
    simp only [V3.addScalar, V3.mk.injEq]
    exact ⟨by ring, by ring, by ring⟩

/-- Witness for C6: the theorem applied at weight 1/2 with configured
scale (2,2,2) and no rotation: each axis factor is `1 + (1/2)*2 = 2`, so a
point with pressure 2 ends with pressure `2 * ((2+2+2)/3) = 4`. -/
theorem deformPolyline_weight_semantics_witness :
    (0 : ℚ) ≤ 1 / 2 ∧
    (deformPolylinePoint (fun _ => 1) (fun _ => 0)
        ⟨⟨1, 2, 3⟩, ⟨0, 0, 0⟩, ⟨2, 2, 2⟩⟩ (1 / 2) ⟨⟨1, 1, 1⟩, 2⟩).pressure =
      2 * (((1 + (1 / 2 : ℚ) * 2) + (1 + (1 / 2 : ℚ) * 2) + (1 + (1 / 2 : ℚ) * 2)) / 3) :=
  ⟨by norm_num,
   (deformPolyline_weight_semantics (fun _ => 1) (fun _ => 0)
      ⟨⟨1, 2, 3⟩, ⟨0, 0, 0⟩, ⟨2, 2, 2⟩⟩ (1 / 2) ⟨⟨1, 1, 1⟩, 2⟩ (by norm_num)).1⟩

/-- Helper: the clamp branch of `collapse_ratio` lands in `[1/4, 5]`;
otherwise the entering ratio is returned unchanged. -/
theorem collapse_ratio_bound_or_id (bm_min : ℚ) (st : EdgeQueueStats) (r : ℚ) :
    collapse_ratio bm_min st r = r ∨
      (1 / 4 ≤ collapse_ratio bm_min st r ∧ collapse_ratio bm_min st r ≤ 5) := by
  by_cases h1 : 0 < st.totedge
  · by_cases h2 : 0 < bm_min ∧ 0 < st.avg_elen / st.totedge
    · unfold collapse_ratio
      rw [if_pos h1, if_pos h2]
      exact Or.inr ⟨le_min (le_max_right _ _) (by norm_num), min_le_right _ _⟩
    · unfold collapse_ratio
      rw [if_pos h1, if_neg h2]
      exact Or.inl rfl
  · unfold collapse_ratio
    rw [if_neg h1]
    exact Or.inl rfl

/-- Helper: the clamp branch of `subdivide_ratio` lands in `[1/20, 1]`;
otherwise the entering ratio is returned unchanged. -/
theorem subdivide_ratio_bound_or_id (bm_max : ℚ) (st : EdgeQueueStats) (r : ℚ) :
    subdivide_ratio bm_max st r = r ∨
      (1 / 20 ≤ subdivide_ratio bm_max st r ∧ subdivide_ratio bm_max st r ≤ 1) := by
  by_cases h1 : 0 < st.totedge
  · by_cases h2 : 0 < st.avg_elen / st.totedge
    · unfold subdivide_ratio
      rw [if_pos h1, if_pos h2]
      exact Or.inr ⟨le_min (le_max_right _ _) (by norm_num), min_le_right _ _⟩
    · unfold subdivide_ratio
      rw [if_pos h1, if_neg h2]
      exact Or.inl rfl
  · unfold subdivide_ratio
    rw [if_neg h1]
    exact Or.inl rfl

/-- Helper: when its guards hold, `subdivide_ratio` definitely clamps. -/
theorem subdivide_ratio_clamped (bm_max : ℚ) (st : EdgeQueueStats) (r : ℚ)
    (h1 : 0 < st.totedge) (h2 : 0 < st.avg_elen / st.totedge) :
    1 / 20 ≤ subdivide_ratio bm_max st r ∧ subdivide_ratio bm_max st r ≤ 1 := by
  unfold subdivide_ratio
  rw [if_pos h1, if_pos h2]
  exact ⟨le_min (le_max_right _ _) (by norm_num), min_le_right _ _⟩

/-- Helper: accumulating nonnegative edge lengths never decreases the
length sum or the edge count. -/
theorem accumStats_mono (ls : List ℚ) (h : ∀ d ∈ ls, 0 ≤ d)
    (st : EdgeQueueStats) :
    st.avg_elen ≤ (accumStats st ls).avg_elen
      ∧ st.totedge ≤ (accumStats st ls).totedge := by
  induction ls generalizing st with
  | nil => exact ⟨le_refl _, le_refl _⟩
  | cons d ds ih =>
    have hd : 0 ≤ d := h d (List.mem_cons_self d ds)
    have hds : ∀ x ∈ ds, 0 ≤ x := fun x hx => h x (List.mem_cons_of_mem d hx)
    have hrec := ih hds (edge_queue_insert_stats st d)
    refine ⟨le_trans ?_ hrec.1, le_trans ?_ hrec.2⟩
    · exact le_add_of_nonneg_right hd
    · simp [edge_queue_insert_stats]

/-- Helper: the shared ratio after the collapse block is either still the
initial `1.0f`, or the collapse clamp ran, in which case its guards
(positive edge count and positive average length) held. -/
theorem ratio_after_collapse_one_or_guards (mode : TopologyMode)
    (bm_min : ℚ) (cl : List ℚ) :
    ratio_after_collapse mode bm_min cl = 1 ∨
      (mode.collapse = true
        ∧ 0 < (accumStats eqStatsInit cl).totedge
        ∧ 0 < (accumStats eqStatsInit cl).avg_elen
              / (accumStats eqStatsInit cl).totedge) := by
  unfold ratio_after_collapse
  by_cases hc : mode.collapse
  · rw [if_pos hc]
    by_cases h1 : 0 < (accumStats eqStatsInit cl).totedge
    · by_cases h2 : 0 < bm_min ∧ 0 < (accumStats eqStatsInit cl).avg_elen
          / (accumStats eqStatsInit cl).totedge
      · exact Or.inr ⟨hc, h1, h2.2⟩
      · unfold collapse_ratio
        rw [if_pos h1, if_neg h2]
        exact Or.inl rfl
    · unfold collapse_ratio
      rw [if_neg h1]
      exact Or.inl rfl
  · rw [if_neg hc]
    exact Or.inl rfl

/-- C1: in every `BKE_pbvh_bmesh_update_topology` call, whatever the
admitted edge-length distribution (zero-length edges included), the ratio
used for the collapse pass `max_steps` lies in `[0.25, 5.0]` and the ratio
used for the subdivision pass `max_steps` lies in `[0.05, 1.0]`, also when
both `PBVH_Collapse` and `PBVH_Subdivide` are requested in one call (the
`ratio` local and the edge statistics are shared between the passes). -/
theorem update_topology_throttle_ratio_bounds (mode : TopologyMode)
    (bm_min bm_max : ℚ) (cl sb : List ℚ)
    (hcl : ∀ d ∈ cl, 0 ≤ d) (hsb : ∀ d ∈ sb, 0 ≤ d) :
    (∀ rc, (update_topology_ratios mode bm_min bm_max cl sb).1 = some rc →
        1 / 4 ≤ rc ∧ rc ≤ 5)
    ∧ (∀ rs, (update_topology_ratios mode bm_min bm_max cl sb).2 = some rs →
        1 / 20 ≤ rs ∧ rs ≤ 1) := by
  have hrb : 1 / 4 ≤ ratio_after_collapse mode bm_min cl
      ∧ ratio_after_collapse mode bm_min cl ≤ 5 := by
    unfold ratio_after_collapse
    split_ifs with h
    · rcases collapse_ratio_bound_or_id bm_min (accumStats eqStatsInit cl) 1 with
        he | hb
      · rw [he]; norm_num
      · exact hb
    · norm_num
  constructor
  · intro rc h
    unfold update_topology_ratios at h
    dsimp only at h
    by_cases hc : mode.collapse
    · rw [if_pos hc, Option.some.injEq] at h
      exact h ▸ hrb
    · rw [if_neg hc] at h
      exact absurd h (by simp)
  · intro rs h
    unfold update_topology_ratios at h
    dsimp only at h
    by_cases hms : mode.subdivide
    · rw [if_pos hms, Option.some.injEq] at h
      subst h
      rcases ratio_after_collapse_one_or_guards mode bm_min cl with hone | ⟨hc, h1, h2⟩
      · -- the subdivide pass enters with ratio 1, which survives both the
        -- clamp branch and the fall-through branch inside [0.05, 1].
        rw [hone]
        rcases subdivide_ratio_bound_or_id bm_max
            (accumStats (stats_after_collapse mode cl) sb) 1 with he | hb
        · rw [he]; norm_num
        · exact hb
      · -- the collapse clamp ran, so the shared statistics already hold a
        -- positive edge count and sum; accumulating the (nonnegative)
        -- subdivision candidates keeps both positive, hence the subdivide
        -- clamp runs and bounds the result.
        have hstc : stats_after_collapse mode cl = accumStats eqStatsInit cl := by
          unfold stats_after_collapse
          rw [if_pos hc]
        have havg1 : 0 < (accumStats eqStatsInit cl).avg_elen := by
          rcases div_pos_iff.mp h2 with ⟨hp, _⟩ | ⟨_, hq⟩
          · exact hp
          · exact absurd h1 (not_lt.mpr (le_of_lt hq))
        have hmono := accumStats_mono sb hsb (accumStats eqStatsInit cl)
        have htot2 : 0 < (accumStats (accumStats eqStatsInit cl) sb).totedge :=
          lt_of_lt_of_le h1 hmono.2
        have havg2 : 0 < (accumStats (accumStats eqStatsInit cl) sb).avg_elen :=
          lt_of_lt_of_le havg1 hmono.1
        rw [hstc]
        exact subdivide_ratio_clamped bm_max _ _ htot2 (div_pos havg2 htot2)
    · rw [if_neg hms] at h
      exact absurd h (by simp)

/-- Witness for C1: requesting both Collapse and Subdivide with the
default detail sizes (`bm_min_edge_len = 0.3`, `bm_max_edge_len = 0.75`),
one admitted collapse edge of length 1 and one admitted subdivision edge
of length 2: the collapse ratio evaluates to `20/13` and the subdivision
ratio to `7/12`, and the theorem puts them inside the claimed intervals. -/
theorem update_topology_throttle_ratio_bounds_witness :
    (update_topology_ratios ⟨true, true, true⟩ (3 / 10) (3 / 4) [1] [2]).1 = some (20 / 13)
    ∧ (update_topology_ratios ⟨true, true, true⟩ (3 / 10) (3 / 4) [1] [2]).2 = some (7 / 12)
    ∧ (1 / 4 ≤ (20 : ℚ) / 13 ∧ (20 : ℚ) / 13 ≤ 5)
    ∧ (1 / 20 ≤ (7 : ℚ) / 12 ∧ (7 : ℚ) / 12 ≤ 1) := by
  have h := update_topology_throttle_ratio_bounds ⟨true, true, true⟩ (3 / 10) (3 / 4)
    [1] [2] (by norm_num) (by norm_num)
  have h1 : (update_topology_ratios ⟨true, true, true⟩ (3 / 10) (3 / 4) [1] [2]).1
      = some (20 / 13) := by
    norm_num [update_topology_ratios, ratio_after_collapse, stats_after_collapse,
      accumStats, eqStatsInit, edge_queue_insert_stats, collapse_ratio,
      subdivide_ratio, List.foldl, max_def, min_def]
  have h2 : (update_topology_ratios ⟨true, true, true⟩ (3 / 10) (3 / 4) [1] [2]).2
      = some (7 / 12) := by
    norm_num [update_topology_ratios, ratio_after_collapse, stats_after_collapse,
      accumStats, eqStatsInit, edge_queue_insert_stats, collapse_ratio,
      subdivide_ratio, List.foldl, max_def, min_def]
  exact ⟨h1, h2, h.1 (20 / 13) h1, h.2 (7 / 12) h2⟩

/-- Helper: an element of `l.zip (l.map f)` pairs each element with its
image. -/
theorem mem_zip_map_self {α β : Type} (f : α → β) :
    ∀ (l : List α) (p : α × β), p ∈ l.zip (l.map f) → p.2 = f p.1 := by
  intro l
  induction l with
  | nil => intro p hp; simp at hp
  | cons a t ih =>
    intro p hp
    rcases List.mem_cons.mp hp with h | h
    · subst h; rfl
    · exact ih p h

/-- C5: one `BKE_pbvh_bmesh_update_topology` call performs exactly the
requested operations of {Collapse, Subdivide, Cleanup}, in exactly that
order; on return the needs-topology-update flag is cleared on every
processed leaf (flagged, visible leaf) even when no pass modified the
mesh, and `pbvh_bmesh_node_limit_ensure` (the re-split of over-limit
leaves) is invoked on exactly the processed leaves precisely when
something was modified and rebalancing (`updatePBVH`) was requested. -/
theorem BKE_pbvh_bmesh_update_topology_spec
    (cP sP clP : List PNode → Bool × List PNode)
    (mode : TopologyMode) (upd : Bool) (nodes : List PNode) :
    (BKE_pbvh_bmesh_update_topology cP sP clP mode upd nodes).1 = performed_ops mode
    ∧ (performed_ops mode).Sublist [TopoOp.collapse, TopoOp.subdivide, TopoOp.cleanup]
    ∧ (TopoOp.collapse ∈ performed_ops mode ↔ mode.collapse = true)
    ∧ (TopoOp.subdivide ∈ performed_ops mode ↔ mode.subdivide = true)
    ∧ (TopoOp.cleanup ∈ performed_ops mode ↔ mode.cleanup = true)
    ∧ (BKE_pbvh_bmesh_update_topology cP sP clP mode upd nodes).2.1
        = (apply_passes cP sP clP mode nodes).1
    ∧ ∀ p ∈ (apply_passes cP sP clP mode nodes).2.zip
          (BKE_pbvh_bmesh_update_topology cP sP clP mode upd nodes).2.2,
        p.1.processed = true →
          p.2.1.updateTopology = false
          ∧ p.2.2 = ((apply_passes cP sP clP mode nodes).1 && upd) := by
  obtain ⟨mc, ms, mcl⟩ := mode
  refine ⟨rfl, ?_, ?_, ?_, ?_, rfl, ?_⟩
  · cases mc <;> cases ms <;> cases mcl <;> decide
  · cases mc <;> cases ms <;> cases mcl <;> decide
  · cases mc <;> cases ms <;> cases mcl <;> decide
  · cases mc <;> cases ms <;> cases mcl <;> decide
  · intro p hp hproc
    have hleaf : p.1.leaf = true ∧ p.1.updateTopology = true
        ∧ p.1.fullyHidden = false := by
      have := hproc
      unfold PNode.processed at this
      simp only [Bool.and_eq_true, Bool.not_eq_true'] at this
      exact ⟨this.1.1, this.1.2, this.2⟩
    by_cases hm : (apply_passes cP sP clP ⟨mc, ms, mcl⟩ nodes).1 = true
    · have hmap : (BKE_pbvh_bmesh_update_topology cP sP clP ⟨mc, ms, mcl⟩ upd nodes).2.2
          = (apply_passes cP sP clP ⟨mc, ms, mcl⟩ nodes).2.map (clear_flag_modified upd) := by
        unfold BKE_pbvh_bmesh_update_topology
        rw [if_pos hm]
      rw [hmap] at hp
      have h2 := mem_zip_map_self (clear_flag_modified upd) _ p hp
      have hcond : (p.1.leaf && p.1.updateTopology && !p.1.fullyHidden) = true := hproc
      rw [h2]
      unfold clear_flag_modified
      rw [if_pos hcond, hm]
      simp
    · have hmf : (apply_passes cP sP clP ⟨mc, ms, mcl⟩ nodes).1 = false :=
        Bool.not_eq_true _ ▸ Bool.eq_false_iff.mpr (fun habs => hm habs)
      have hmap : (BKE_pbvh_bmesh_update_topology cP sP clP ⟨mc, ms, mcl⟩ upd nodes).2.2
          = (apply_passes cP sP clP ⟨mc, ms, mcl⟩ nodes).2.map clear_flag_unmodified := by
        unfold BKE_pbvh_bmesh_update_topology
        rw [if_neg hm]
      rw [hmap] at hp
      have h2 := mem_zip_map_self clear_flag_unmodified _ p hp
      have hcond : (p.1.leaf && p.1.updateTopology) = true := by
        rw [hleaf.1, hleaf.2.1]; rfl
      rw [h2]
      unfold clear_flag_unmodified
      rw [if_pos hcond, hmf]
      simp

/-- Witness for C5: identity passes where only the collapse pass reports a
modification, one flagged visible leaf, rebalancing requested: the flag is
cleared and limit-ensure runs on that leaf. -/
theorem BKE_pbvh_bmesh_update_topology_spec_witness :
    (((⟨true, true, false⟩ : PNode), ((⟨true, false, false⟩ : PNode), true)) ∈
        (apply_passes (fun ns => (true, ns)) (fun ns => (false, ns)) (fun ns => (false, ns))
            ⟨true, true, true⟩ [⟨true, true, false⟩]).2.zip
          (BKE_pbvh_bmesh_update_topology (fun ns => (true, ns)) (fun ns => (false, ns))
            (fun ns => (false, ns)) ⟨true, true, true⟩ true [⟨true, true, false⟩]).2.2)
    ∧ (⟨true, true, false⟩ : PNode).processed = true
    ∧ ((⟨true, false, false⟩ : PNode), true).1.updateTopology = false
    ∧ ((⟨true, false, false⟩ : PNode), true).2 =
        ((apply_passes (fun ns => (true, ns)) (fun ns => (false, ns)) (fun ns => (false, ns))
            ⟨true, true, true⟩ [⟨true, true, false⟩]).1 && true) := by
  refine ⟨by decide, by decide, ?_⟩
  have h := (BKE_pbvh_bmesh_update_topology_spec (fun ns => (true, ns))
    (fun ns => (false, ns)) (fun ns => (false, ns)) ⟨true, true, true⟩ true
    [⟨true, true, false⟩]).2.2.2.2.2.2
      ((⟨true, true, false⟩ : PNode), ((⟨true, false, false⟩ : PNode), true))
      (by decide) (by decide)
  exact h

/-- Helper: gset insertion of a whole list splits over append. -/
theorem gsetAddAll_append {α : Type} [DecidableEq α] (s : List α) (xs ys : List α) :
    gsetAddAll s (xs ++ ys) = gsetAddAll (gsetAddAll s xs) ys :=
  List.foldl_append _ _ _ _

/-- Helper: membership in a gset after bulk insertion. -/
theorem mem_gsetAddAll {α : Type} [DecidableEq α] (x : α) :
    ∀ (xs s : List α), x ∈ gsetAddAll s xs ↔ x ∈ s ∨ x ∈ xs := by
  intro xs
  induction xs with
  | nil => intro s; simp [gsetAddAll]
  | cons a t ih =>
    intro s
    have hstep : gsetAddAll s (a :: t) = gsetAddAll (gsetAdd s a) t := rfl
    rw [hstep, ih]
    unfold gsetAdd
    by_cases ha : a ∈ s
    · rw [if_pos ha]
      constructor
      · rintro (h | h)
        · exact Or.inl h
        · exact Or.inr (List.mem_cons_of_mem a h)
      · rintro (h | h)
        · exact Or.inl h
        · rcases List.mem_cons.mp h with he | ht
          · exact Or.inl (he ▸ ha)
          · exact Or.inr ht
    · rw [if_neg ha]
      constructor
      · rintro (h | h)
        · rcases List.mem_append.mp h with hs | hx
          · exact Or.inl hs
          · simp at hx
            exact Or.inr (hx ▸ List.mem_cons_self a t)
        · exact Or.inr (List.mem_cons_of_mem a h)
      · rintro (h | h)
        · exact Or.inl (List.mem_append.mpr (Or.inl h))
        · rcases List.mem_cons.mp h with he | ht
          · exact Or.inl (List.mem_append.mpr (Or.inr (by simp [he])))
          · exact Or.inr ht

/-- Helper: `pbvh_bmesh_join_subnodes` gset-adds exactly the subtree's
unique vertices and faces in traversal order. -/
theorem pbvh_bmesh_join_subnodes_eq :
    ∀ (t : PBVHTree) (acc : List BVert × List BFace),
      pbvh_bmesh_join_subnodes t acc =
        (gsetAddAll acc.1 (subtreeUniqueVerts t), gsetAddAll acc.2 (subtreeFaces t)) := by
  intro t
  induction t with
  | leaf d => intro acc; rfl
  | inner f l r ihl ihr =>
    intro acc
    show pbvh_bmesh_join_subnodes r (pbvh_bmesh_join_subnodes l acc) = _
    rw [ihl acc, ihr]
    show _ = (gsetAddAll acc.1 (subtreeUniqueVerts l ++ subtreeUniqueVerts r),
      gsetAddAll acc.2 (subtreeFaces l ++ subtreeFaces r))
    rw [gsetAddAll_append, gsetAddAll_append]

/-- C4: in the post-stroke merge/compaction pass, the root node is never
merged away; a leaf passes through unchanged; the merge condition
`subtree_tottri < leaf_limit - (leaf_limit >> 1)` is exactly "subtree face
count under half the leaf limit"; and every non-root internal node under
that threshold is merged into a single leaf that absorbs all faces and
unique vertices of its subtree, has its bounding box recomputed from its
member vertices, and is marked a fully dirty leaf; over the threshold the
recursion continues into the children instead. -/
theorem corect_tree_merge_spec (ll : Nat) (f : NodeFlags) (l r : PBVHTree) :
    BKE_pbvh_bmesh_corect_tree ll true (.inner f l r)
      = .inner f (BKE_pbvh_bmesh_corect_tree ll false l)
          (BKE_pbvh_bmesh_corect_tree ll false r)
    ∧ (∀ d isRoot, BKE_pbvh_bmesh_corect_tree ll isRoot (.leaf d) = .leaf d)
    ∧ (subtree_tottri (.inner f l r) < ll - ll / 2
        ↔ 2 * subtree_tottri (.inner f l r) < ll)
    ∧ (2 * subtree_tottri (.inner f l r) < ll →
        BKE_pbvh_bmesh_corect_tree ll false (.inner f l r) = .leaf (merged_node f l r)
        ∧ (∀ fc, fc ∈ (merged_node f l r).bm_faces
            ↔ fc ∈ subtreeFaces (.inner f l r))
        ∧ (∀ v, v ∈ (merged_node f l r).bm_unique_verts
            ↔ v ∈ subtreeUniqueVerts (.inner f l r))
        ∧ (merged_node f l r).flag.leaf = true
        ∧ (merged_node f l r).flag.fullyDirty
        ∧ (merged_node f l r).vb = bbFromVerts
            ((merged_node f l r).bm_unique_verts ++ (merged_node f l r).bm_other_verts)
        ∧ (merged_node f l r).orig_vb = (merged_node f l r).vb)
    ∧ (¬ 2 * subtree_tottri (.inner f l r) < ll →
        BKE_pbvh_bmesh_corect_tree ll false (.inner f l r)
          = .inner f (BKE_pbvh_bmesh_corect_tree ll false l)
              (BKE_pbvh_bmesh_corect_tree ll false r)) := by
  have hhalf : subtree_tottri (.inner f l r) < ll - ll / 2
      ↔ 2 * subtree_tottri (.inner f l r) < ll := by omega
  have hjoin := pbvh_bmesh_join_subnodes_eq
  refine ⟨?_, ?_, hhalf, ?_, ?_⟩
  · show (if subtree_tottri (.inner f l r) < ll - ll / 2 ∧ true = false then _ else _) = _
    rw [if_neg (by simp)]
  · intro d isRoot; rfl
  · intro hlt
    have hcond : subtree_tottri (.inner f l r) < ll - ll / 2 ∧ false = false :=
      ⟨hhalf.mpr hlt, rfl⟩
    constructor
    · show (if subtree_tottri (.inner f l r) < ll - ll / 2 ∧ false = false
        then PBVHTree.leaf (merged_node f l r) else _) = _
      rw [if_pos hcond]
    refine ⟨?_, ?_, rfl, ?_, ?_, rfl⟩
    · intro fc
      show fc ∈ (pbvh_bmesh_join_subnodes r (pbvh_bmesh_join_subnodes l ([], []))).2 ↔ _
      rw [hjoin l ([], []), hjoin r _]
      dsimp only
      rw [mem_gsetAddAll, mem_gsetAddAll]
      show _ ↔ fc ∈ subtreeFaces l ++ subtreeFaces r
      rw [List.mem_append]
      simp
    · intro v
      show v ∈ (pbvh_bmesh_join_subnodes r (pbvh_bmesh_join_subnodes l ([], []))).1 ↔ _
      rw [hjoin l ([], []), hjoin r _]
      dsimp only
      rw [mem_gsetAddAll, mem_gsetAddAll]
      show _ ↔ v ∈ subtreeUniqueVerts l ++ subtreeUniqueVerts r
      rw [List.mem_append]
      simp
    · show (orDirtyFlags f).fullyDirty
      unfold orDirtyFlags NodeFlags.fullyDirty
      exact ⟨rfl, rfl, rfl, rfl, rfl, rfl, rfl, rfl, rfl, rfl, rfl⟩
    · show _ = bbFromVerts _
      unfold bbFromVerts
      rw [List.foldl_append]
      rfl
  · intro hge
    show (if subtree_tottri (.inner f l r) < ll - ll / 2 ∧ false = false
      then _ else _) = _
    rw [if_neg (by
      rintro ⟨hc, _⟩
      exact hge (hhalf.mp hc))]

/-- Witness for C4: leaf limit 4, an internal node over two leaves holding
one face in total (`2*1 < 4`): the merge branch fires and the node becomes
the single merged leaf. -/
theorem corect_tree_merge_spec_witness :
    2 * subtree_tottri (PBVHTree.inner
        ⟨false, false, false, false, false, false, false, false, false, false, false, false, false⟩
        (.leaf ⟨⟨true, false, false, false, false, false, false, false, false, false, false, false, false⟩,
          [⟨1, []⟩], [⟨1, ⟨0, 0, 0⟩⟩], [], BB_reset, BB_reset⟩)
        (.leaf ⟨⟨true, false, false, false, false, false, false, false, false, false, false, false, false⟩,
          [], [], [], BB_reset, BB_reset⟩)) < 4
    ∧ BKE_pbvh_bmesh_corect_tree 4 false (PBVHTree.inner
        ⟨false, false, false, false, false, false, false, false, false, false, false, false, false⟩
        (.leaf ⟨⟨true, false, false, false, false, false, false, false, false, false, false, false, false⟩,
          [⟨1, []⟩], [⟨1, ⟨0, 0, 0⟩⟩], [], BB_reset, BB_reset⟩)
        (.leaf ⟨⟨true, false, false, false, false, false, false, false, false, false, false, false, false⟩,
          [], [], [], BB_reset, BB_reset⟩))
      = .leaf (merged_node
        ⟨false, false, false, false, false, false, false, false, false, false, false, false, false⟩
        (.leaf ⟨⟨true, false, false, false, false, false, false, false, false, false, false, false, false⟩,
          [⟨1, []⟩], [⟨1, ⟨0, 0, 0⟩⟩], [], BB_reset, BB_reset⟩)
        (.leaf ⟨⟨true, false, false, false, false, false, false, false, false, false, false, false, false⟩,
          [], [], [], BB_reset, BB_reset⟩)) :=
  ⟨by decide,
   ((corect_tree_merge_spec 4
      ⟨false, false, false, false, false, false, false, false, false, false, false, false, false⟩
      (.leaf ⟨⟨true, false, false, false, false, false, false, false, false, false, false, false, false⟩,
        [⟨1, []⟩], [⟨1, ⟨0, 0, 0⟩⟩], [], BB_reset, BB_reset⟩)
      (.leaf ⟨⟨true, false, false, false, false, false, false, false, false, false, false, false, false⟩,
        [], [], [], BB_reset, BB_reset⟩)).2.2.2.1 (by decide)).1⟩

/-- Helper: `mapLast` preserves list length. -/
theorem mapLast_length {α : Type} (f : α → α) : ∀ l : List α, (mapLast f l).length = l.length := by
  intro l
  induction l with
  | nil => rfl
  | cons a t ih =>
    cases t with
    | nil => rfl
    | cons b t2 => simpa [mapLast] using ih

/-- Helper: mapping a projection that `f` does not change over `mapLast f`. -/
theorem map_mapLast_congr {α β : Type} (φ : α → β) (f : α → α)
    (hf : ∀ a, φ (f a) = φ a) : ∀ l : List α, (mapLast f l).map φ = l.map φ := by
  intro l
  induction l with
  | nil => rfl
  | cons a t ih =>
    cases t with
    | nil => simp [mapLast, hf]
    | cons b t2 => simpa [mapLast] using ih

set_option maxRecDepth 8192 in
/-- Helper: symbolic evaluation of the `MOUSEMOVE` event of the C2
scenario: past the drag threshold, `IN_SET_VECTOR` becomes
`IN_DRAG_ALIGNED_HANDLE`, the single point's handle types become
`HD_ALIGN` and its handles mirror through the anchor. -/
theorem curve_draw_step1 (env : Env) (nid : Nat) (pressed : Bool)
    (hc : ((env.drag_threshold : Int)) ^ 2 < dist2 (150, 100) (0, 0)) :
    gpencil_curve_draw_modal env
      { tcd := { state := .set_vector, imval := (100, 100), imval_prev := (100, 100),
                 imval_start := (0, 0), imval_end := (0, 0), is_mouse_down := pressed,
                 is_cyclic := false, prev_pressure := 0 },
        frame := [⟨nid, false, ⟨0, [⟨.free, .free, env.unproject (100, 100),
          env.unproject (100, 100), env.unproject (100, 100), 1, 1, false⟩]⟩⟩],
        curId := nid, nextId := nid + 1 }
      (.mousemove (150, 100))
    = .running
      { tcd := { state := .drag_aligned, imval := (150, 100), imval_prev := (150, 100),
                 imval_start := (0, 0), imval_end := (0, 0), is_mouse_down := pressed,
                 is_cyclic := false, prev_pressure := 0 },
        frame := [⟨nid, false, ⟨0, [⟨.align, .align,
          ((env.unproject (100, 100)).sub (env.unproject (150, 100))).add
            (env.unproject (100, 100)),
          env.unproject (100, 100), env.unproject (150, 100), 1, 1, false⟩]⟩⟩],
        curId := nid, nextId := nid + 1 } := by
  unfold gpencil_curve_draw_modal
  dsimp only
  rw [if_pos (⟨rfl, hc⟩ : _ ∧ _)]
  simp [gpencil_set_handle_type_last_point, gpencil_curve_draw_update,
    modifyLastPoint, modifyCurve, modifyCur, mapLast, setImvalPrev, List.map]

set_option maxRecDepth 8192 in
/-- Helper: symbolic evaluation of the `LEFTMOUSE` release of the C2
scenario: back to `IN_MOVE`, the preview point (a vector-handled duplicate)
is pushed and moved to the cursor, and the handles are recalculated. -/
theorem curve_draw_step2 (env : Env) (nid : Nat) (pressed : Bool) :
    gpencil_curve_draw_modal env
      { tcd := { state := .drag_aligned, imval := (150, 100), imval_prev := (150, 100),
                 imval_start := (0, 0), imval_end := (0, 0), is_mouse_down := pressed,
                 is_cyclic := false, prev_pressure := 0 },
        frame := [⟨nid, false, ⟨0, [⟨.align, .align,
          ((env.unproject (100, 100)).sub (env.unproject (150, 100))).add
            (env.unproject (100, 100)),
          env.unproject (100, 100), env.unproject (150, 100), 1, 1, false⟩]⟩⟩],
        curId := nid, nextId := nid + 1 }
      (.left_release (150, 100))
    = .running
      { tcd := { state := .move, imval := (150, 100), imval_prev := (150, 100),
                 imval_start := (0, 0), imval_end := (150, 100), is_mouse_down := false,
                 is_cyclic := false, prev_pressure := 0 },
        frame := [⟨nid, false, env.recalc ⟨0, [⟨.align, .align,
          ((env.unproject (100, 100)).sub (env.unproject (150, 100))).add
            (env.unproject (100, 100)),
          env.unproject (100, 100), env.unproject (150, 100), 1, 1, false⟩,
          ⟨.vect, .vect, env.unproject (150, 100), env.unproject (150, 100),
            env.unproject (150, 100), 1, 1, false⟩]⟩⟩],
        curId := nid, nextId := nid + 1 } := by
  unfold gpencil_curve_draw_modal
  dsimp only
  rw [if_pos (by exact Or.inr (Or.inl rfl))]
  simp [gpencil_push_curve_point, gpencil_curve_draw_update,
    modifyLastPoint, modifyCurve, modifyCur, mapLast, setImvalPrev, List.map,
    List.getLast?]

set_option maxRecDepth 8192 in
/-- Helper: symbolic evaluation of the `CONFIRM` command of the C2
scenario: in `IN_MOVE` the preview point is popped (fresh duplicate stroke
with one fewer point spliced in), the last point is deselected, handles
recalculated, and the operator finishes. -/
theorem curve_draw_step3 (env : Env) (nid : Nat) :
    gpencil_curve_draw_modal env
      { tcd := { state := .move, imval := (150, 100), imval_prev := (150, 100),
                 imval_start := (0, 0), imval_end := (150, 100), is_mouse_down := false,
                 is_cyclic := false, prev_pressure := 0 },
        frame := [⟨nid, false, env.recalc ⟨0, [⟨.align, .align,
          ((env.unproject (100, 100)).sub (env.unproject (150, 100))).add
            (env.unproject (100, 100)),
          env.unproject (100, 100), env.unproject (150, 100), 1, 1, false⟩,
          ⟨.vect, .vect, env.unproject (150, 100), env.unproject (150, 100),
            env.unproject (150, 100), 1, 1, false⟩]⟩⟩],
        curId := nid, nextId := nid + 1 }
      (.modal .confirm (150, 100))
    = .finished [⟨nid + 1, false, env.recalc ⟨(env.recalc ⟨0, [⟨.align, .align,
          ((env.unproject (100, 100)).sub (env.unproject (150, 100))).add
            (env.unproject (100, 100)),
          env.unproject (100, 100), env.unproject (150, 100), 1, 1, false⟩,
          ⟨.vect, .vect, env.unproject (150, 100), env.unproject (150, 100),
            env.unproject (150, 100), 1, 1, false⟩]⟩).flag,
        mapLast (fun p => { p with selected := false })
          ((env.recalc ⟨0, [⟨.align, .align,
            ((env.unproject (100, 100)).sub (env.unproject (150, 100))).add
              (env.unproject (100, 100)),
            env.unproject (100, 100), env.unproject (150, 100), 1, 1, false⟩,
            ⟨.vect, .vect, env.unproject (150, 100), env.unproject (150, 100),
              env.unproject (150, 100), 1, 1, false⟩]⟩).points.dropLast)⟩⟩] := by
  unfold gpencil_curve_draw_modal
  dsimp only
  simp [gpencil_pop_curve_point, gpencil_curve_draw_confirm, Model.cur,
    modifyLastPoint, modifyCurve, modifyCur, mapLast, remlink, setImvalPrev,
    List.map, List.find?, List.filter]

/-- Helper: `map` and `dropLast` commute. -/
theorem dropLast_map_comm {α β : Type} (f : α → β) :
    ∀ l : List α, (l.map f).dropLast = l.dropLast.map f := by
  intro l
  induction l with
  | nil => rfl
  | cons a t ih =>
    cases t with
    | nil => rfl
    | cons b t2 => simpa [List.dropLast] using ih

set_option maxRecDepth 8192 in
/-- C2 (amended): the claimed click-drag-release-CONFIRM scenario yields a
persisted stroke whose edit curve has exactly ONE control point — the
initial point, anchored at the initial unprojected position, with
aligned-type handles set during the drag.  (The vector-handled point
appended on release is only the `IN_MOVE` preview point, and `CONFIRM`
pops it before finalising.)  `hrec` states the external handle
recalculation keeps the point count, handle types and anchors; `hthr`
states the 50-pixel drag exceeds the drag threshold. -/
theorem curve_draw_roundtrip_amended (env : Env)
    (hrec : ∀ c : Curve, (env.recalc c).points.map (fun p => (p.h1, p.h2, p.vec1))
      = c.points.map (fun p => (p.h1, p.h2, p.vec1)))
    (hthr : ((env.drag_threshold : Int)) ^ 2 < 2500) (nid : Nat) (pressed : Bool) :
    ∃ s, runEvents env (gpencil_curve_draw_init env [] nid (100, 100) pressed)
        [.mousemove (150, 100), .left_release (150, 100), .modal .confirm (150, 100)]
      = .finished [s]
    ∧ s.curve.points.length = 1
    ∧ ∀ p ∈ s.curve.points, p.h1 = .align ∧ p.h2 = .align
        ∧ p.vec1 = env.unproject (100, 100) := by
  have hc : ((env.drag_threshold : Int)) ^ 2 < dist2 (150, 100) (0, 0) := by
    have h25 : dist2 (150, 100) (0, 0) = (32500 : Int) := by decide
    rw [h25]
    exact lt_trans hthr (by norm_num)
  have hrun : runEvents env (gpencil_curve_draw_init env [] nid (100, 100) pressed)
      [.mousemove (150, 100), .left_release (150, 100), .modal .confirm (150, 100)]
    = .finished [⟨nid + 1, false, env.recalc ⟨(env.recalc ⟨0, [⟨.align, .align,
          ((env.unproject (100, 100)).sub (env.unproject (150, 100))).add
            (env.unproject (100, 100)),
          env.unproject (100, 100), env.unproject (150, 100), 1, 1, false⟩,
          ⟨.vect, .vect, env.unproject (150, 100), env.unproject (150, 100),
            env.unproject (150, 100), 1, 1, false⟩]⟩).flag,
        mapLast (fun p => { p with selected := false })
          ((env.recalc ⟨0, [⟨.align, .align,
            ((env.unproject (100, 100)).sub (env.unproject (150, 100))).add
              (env.unproject (100, 100)),
            env.unproject (100, 100), env.unproject (150, 100), 1, 1, false⟩,
            ⟨.vect, .vect, env.unproject (150, 100), env.unproject (150, 100),
              env.unproject (150, 100), 1, 1, false⟩]⟩).points.dropLast)⟩⟩] := by
    have h0 : gpencil_curve_draw_init env [] nid (100, 100) pressed
        = { tcd := { state := .set_vector, imval := (100, 100), imval_prev := (100, 100),
                     imval_start := (0, 0), imval_end := (0, 0), is_mouse_down := pressed,
                     is_cyclic := false, prev_pressure := 0 },
            frame := [⟨nid, false, ⟨0, [⟨.free, .free, env.unproject (100, 100),
              env.unproject (100, 100), env.unproject (100, 100), 1, 1, false⟩]⟩⟩],
            curId := nid, nextId := nid + 1 } := rfl
    rw [h0]
    rw [show runEvents env _ [Event.mousemove (150, 100), Event.left_release (150, 100),
        Event.modal ModalCmd.confirm (150, 100)] = _ from rfl]
    simp only [runEvents, curve_draw_step1 env nid pressed hc,
      curve_draw_step2 env nid pressed, curve_draw_step3 env nid]
  refine ⟨_, hrun, ?_, ?_⟩
  · have hlen1 := congrArg List.length (hrec ⟨(env.recalc ⟨0, [⟨.align, .align,
        ((env.unproject (100, 100)).sub (env.unproject (150, 100))).add
          (env.unproject (100, 100)),
        env.unproject (100, 100), env.unproject (150, 100), 1, 1, false⟩,
        ⟨.vect, .vect, env.unproject (150, 100), env.unproject (150, 100),
          env.unproject (150, 100), 1, 1, false⟩]⟩).flag,
      mapLast (fun p => { p with selected := false })
        ((env.recalc ⟨0, [⟨.align, .align,
          ((env.unproject (100, 100)).sub (env.unproject (150, 100))).add
            (env.unproject (100, 100)),
          env.unproject (100, 100), env.unproject (150, 100), 1, 1, false⟩,
          ⟨.vect, .vect, env.unproject (150, 100), env.unproject (150, 100),
            env.unproject (150, 100), 1, 1, false⟩]⟩).points.dropLast)⟩)
    have hlen2 := congrArg List.length (hrec ⟨0, [⟨.align, .align,
        ((env.unproject (100, 100)).sub (env.unproject (150, 100))).add
          (env.unproject (100, 100)),
        env.unproject (100, 100), env.unproject (150, 100), 1, 1, false⟩,
        ⟨.vect, .vect, env.unproject (150, 100), env.unproject (150, 100),
          env.unproject (150, 100), 1, 1, false⟩]⟩)
    simp only [List.length_map] at hlen1 hlen2
    simp only [hlen1, mapLast_length, List.length_dropLast, hlen2]
    rfl
  · intro p hp
    have hchain : (env.recalc ⟨(env.recalc ⟨0, [⟨.align, .align,
          ((env.unproject (100, 100)).sub (env.unproject (150, 100))).add
            (env.unproject (100, 100)),
          env.unproject (100, 100), env.unproject (150, 100), 1, 1, false⟩,
          ⟨.vect, .vect, env.unproject (150, 100), env.unproject (150, 100),
            env.unproject (150, 100), 1, 1, false⟩]⟩).flag,
        mapLast (fun p => { p with selected := false })
          ((env.recalc ⟨0, [⟨.align, .align,
            ((env.unproject (100, 100)).sub (env.unproject (150, 100))).add
              (env.unproject (100, 100)),
            env.unproject (100, 100), env.unproject (150, 100), 1, 1, false⟩,
            ⟨.vect, .vect, env.unproject (150, 100), env.unproject (150, 100),
              env.unproject (150, 100), 1, 1, false⟩]⟩).points.dropLast)⟩).points.map
        (fun p : CurvePoint => (p.h1, p.h2, p.vec1))
        = [(Handle.align, Handle.align, env.unproject (100, 100))] := by
      rw [hrec]
      dsimp only
      rw [map_mapLast_congr (fun p : CurvePoint => (p.h1, p.h2, p.vec1))
        (fun p : CurvePoint => { p with selected := false }) (fun a => rfl)]
      rw [← dropLast_map_comm (fun p : CurvePoint => (p.h1, p.h2, p.vec1))]
      rw [hrec]
      rfl
    have hmem : (p.h1, p.h2, p.vec1) ∈ [(Handle.align, Handle.align,
        env.unproject (100, 100))] := by
      rw [← hchain]
      exact List.mem_map_of_mem _ hp
    have h := List.mem_singleton.mp hmem
    have h1 : p.h1 = Handle.align := congrArg Prod.fst h
    have hrest := congrArg Prod.snd h
    exact ⟨h1, congrArg Prod.fst hrest, congrArg Prod.snd hrest⟩


/-- Counterexample for C2 as frozen: with a concrete view (identity-plane
unprojection, identity handle recalculation, drag threshold 30), running
click at (100,100), drag to (150,100), release, CONFIRM leaves a persisted
stroke whose edit curve has 1 control point, not the claimed 2. -/
theorem curve_draw_roundtrip_counterexample :
    finished_single_curve_len (runEvents ⟨fun p => ⟨(p.1 : ℚ), (p.2 : ℚ), 0⟩, fun c => c, 30⟩
        (gpencil_curve_draw_init ⟨fun p => ⟨(p.1 : ℚ), (p.2 : ℚ), 0⟩, fun c => c, 30⟩
          [] 0 (100, 100) true)
        [.mousemove (150, 100), .left_release (150, 100), .modal .confirm (150, 100)])
      = some 1
    ∧ finished_single_curve_len (runEvents ⟨fun p => ⟨(p.1 : ℚ), (p.2 : ℚ), 0⟩, fun c => c, 30⟩
        (gpencil_curve_draw_init ⟨fun p => ⟨(p.1 : ℚ), (p.2 : ℚ), 0⟩, fun c => c, 30⟩
          [] 0 (100, 100) true)
        [.mousemove (150, 100), .left_release (150, 100), .modal .confirm (150, 100)])
      ≠ some 2 := by
  constructor
  · decide
  · decide

/-- Witness for the amended C2: the theorem applied to the concrete
identity-plane view of the counterexample. -/
theorem curve_draw_roundtrip_amended_witness :
    ∃ s, runEvents ⟨fun p => ⟨(p.1 : ℚ), (p.2 : ℚ), 0⟩, fun c => c, 30⟩
        (gpencil_curve_draw_init ⟨fun p => ⟨(p.1 : ℚ), (p.2 : ℚ), 0⟩, fun c => c, 30⟩
          [] 5 (100, 100) true)
        [.mousemove (150, 100), .left_release (150, 100), .modal .confirm (150, 100)]
      = .finished [s]
    ∧ s.curve.points.length = 1
    ∧ ∀ p ∈ s.curve.points, p.h1 = .align ∧ p.h2 = .align
        ∧ p.vec1 = (⟨fun p => ⟨(p.1 : ℚ), (p.2 : ℚ), 0⟩, fun c => c, 30⟩ : Env).unproject (100, 100) :=
  curve_draw_roundtrip_amended ⟨fun p => ⟨(p.1 : ℚ), (p.2 : ℚ), 0⟩, fun c => c, 30⟩
    (fun c => rfl) (by norm_num) 5 true

/-- Helper: invariance of `FrameInv` under changes that keep the frame,
current-stroke identity and allocator untouched. -/
theorem FrameInv_congr {pre : List Stroke} {m m' : Model}
    (hf : m'.frame = m.frame) (hc : m'.curId = m.curId)
    (hn : m'.nextId = m.nextId) (h : FrameInv pre m) : FrameInv pre m' := by
  obtain ⟨cur, h1, h2, h3, h4⟩ := h
  exact ⟨cur, by rw [hf, h1], by rw [hc, h2], by rw [hc, hn]; exact h3,
    fun s hs => by rw [hc]; exact h4 s hs⟩

/-- Helper: mapping the "modify the current stroke" function over the
frame rewrites only the tail stroke. -/
theorem map_modifyCur_frame (pre : List Stroke) (cur : Stroke) (cid : Nat)
    (f : Stroke → Stroke) (hpre : ∀ s ∈ pre, s.sid < cid) (hcur : cur.sid = cid) :
    (pre ++ [cur]).map (fun s => if s.sid = cid then f s else s) = pre ++ [f cur] := by
  rw [List.map_append]
  congr 1
  · have h := List.map_congr_left (l := pre)
      (f := fun s => if s.sid = cid then f s else s) (g := id)
      (fun s hs => by
        dsimp only [id]
        rw [if_neg (Nat.ne_of_lt (hpre s hs))])
    rw [h, List.map_id]
  · simp [hcur]

/-- Helper: `modifyCur` with an identity-preserving stroke function keeps
the frame invariant. -/
theorem modifyCur_inv {pre : List Stroke} {m : Model} (f : Stroke → Stroke)
    (hf : ∀ s, (f s).sid = s.sid) (h : FrameInv pre m) :
    FrameInv pre (modifyCur m f) := by
  obtain ⟨cur, h1, h2, h3, h4⟩ := h
  refine ⟨f cur, ?_, by rw [hf]; exact h2, h3, h4⟩
  show m.frame.map _ = _
  rw [h1]
  exact map_modifyCur_frame pre cur m.curId f
    (fun s hs => h2 ▸ h4 s hs) h2

/-- Helper: the tool's per-state curve refresh keeps the frame invariant. -/
theorem update_inv {pre : List Stroke} (env : Env) (m : Model)
    (h : FrameInv pre m) : FrameInv pre (gpencil_curve_draw_update env m) := by
  unfold gpencil_curve_draw_update
  cases hs : m.tcd.state
  all_goals dsimp only
  · exact modifyCur_inv _ (fun s => rfl)
      (modifyCur_inv _ (fun s => rfl) h)
  · exact h
  · exact modifyCur_inv _ (fun s => rfl) h
  · exact modifyCur_inv _ (fun s => rfl) h
  · exact modifyCur_inv _ (fun s => rfl) h

/-- Helper: `find?` skips the pre-invocation strokes (smaller identities)
and returns the tail stroke. -/
theorem find?_tail_stroke (cid : Nat) (cur : Stroke) (hcur : cur.sid = cid) :
    ∀ pre : List Stroke, (∀ s ∈ pre, s.sid < cid) →
      List.find? (fun s => s.sid == cid) (pre ++ [cur]) = some cur := by
  intro pre
  induction pre with
  | nil => intro _; simp [List.find?, hcur]
  | cons a t ih =>
    intro h4
    have ha : (a.sid == cid) = false := by
      simp only [beq_eq_false_iff_ne]
      exact Nat.ne_of_lt (h4 a (List.mem_cons_self a t))
    simp only [List.cons_append, List.find?, ha]
    exact ih (fun s hs => h4 s (List.mem_cons_of_mem a hs))

/-- Helper: the current stroke is found at the tail of the frame. -/
theorem cur_of_inv {pre : List Stroke} {m : Model} (h : FrameInv pre m) :
    ∃ cur, m.frame = pre ++ [cur] ∧ cur.sid = m.curId ∧ m.cur = some cur := by
  obtain ⟨cur, h1, h2, h3, h4⟩ := h
  refine ⟨cur, h1, h2, ?_⟩
  unfold Model.cur
  rw [h1]
  exact find?_tail_stroke m.curId cur h2 pre (fun s hs => h2 ▸ h4 s hs)

/-- Helper: removing the current stroke from the frame restores exactly
the pre-invocation list. -/
theorem remlink_of_inv {pre : List Stroke} {cur : Stroke} {cid : Nat}
    (hpre : ∀ s ∈ pre, s.sid < cid) (hcur : cur.sid = cid) :
    remlink (pre ++ [cur]) cid = pre := by
  unfold remlink
  rw [List.filter_append]
  have h1 : pre.filter (fun s => decide (s.sid ≠ cid)) = pre :=
    List.filter_eq_self.mpr (fun s hs => by
      simp only [decide_eq_true_eq]
      exact Nat.ne_of_lt (hpre s hs))
  have h2 : [cur].filter (fun s => decide (s.sid ≠ cid)) = [] := by
    simp [hcur]
  rw [h1, h2, List.append_nil]

/-- Helper: popping the preview point (fresh duplicate stroke spliced in)
keeps the frame invariant. -/
theorem pop_inv {pre : List Stroke} {m : Model} (h : FrameInv pre m) :
    FrameInv pre (gpencil_pop_curve_point m) := by
  obtain ⟨cur, h1, h2, hfind⟩ := cur_of_inv h
  obtain ⟨cur0, hh1, hh2, h3, h4⟩ := h
  unfold gpencil_pop_curve_point
  rw [hfind]
  dsimp only
  refine ⟨⟨m.nextId, cur.cyclic, ⟨cur.curve.flag, cur.curve.points.dropLast⟩⟩, ?_, rfl,
    Nat.lt_succ_self _, ?_⟩
  · show remlink m.frame m.curId ++ _ = _
    rw [h1, remlink_of_inv (fun s hs => h2 ▸ h4 s hs) h2]
  · intro s hs
    exact lt_trans (h4 s hs) h3

/-- Helper: one modal event that leaves the operator running preserves the
frame invariant (the in-progress stroke stays the tail of the frame and
identities stay fresh). -/
theorem step_inv {pre : List Stroke} (env : Env) (m m' : Model) (ev : Event)
    (h : FrameInv pre m)
    (hstep : gpencil_curve_draw_modal env m ev = .running m') : FrameInv pre m' := by
  have hbase : ∀ t', FrameInv pre { m with tcd := t' } :=
    fun t' => FrameInv_congr rfl rfl rfl h
  cases ev with
  | modal cmd mv =>
    cases cmd with
    | cancel =>
      unfold gpencil_curve_draw_modal at hstep
      exact (ModalResult.noConfusion hstep)
    | confirm =>
      unfold gpencil_curve_draw_modal at hstep
      dsimp only at hstep
      exact (ModalResult.noConfusion hstep)
    | free_handle_on =>
      unfold gpencil_curve_draw_modal at hstep
      dsimp only at hstep
      split at hstep
      all_goals
        injection hstep with h'
        subst h'
        first
        | exact FrameInv_congr rfl rfl rfl
            (update_inv env _ (modifyCur_inv _ (fun s => rfl) (hbase _)))
        | exact FrameInv_congr rfl rfl rfl (hbase _)
    | free_handle_off =>
      unfold gpencil_curve_draw_modal at hstep
      dsimp only at hstep
      split at hstep
      all_goals
        injection hstep with h'
        subst h'
        first
        | exact FrameInv_congr rfl rfl rfl
            (update_inv env _ (modifyCur_inv _ (fun s => rfl) (hbase _)))
        | exact FrameInv_congr rfl rfl rfl (hbase _)
    | cyclic_toggle =>
      unfold gpencil_curve_draw_modal at hstep
      dsimp only at hstep
      injection hstep with h'
      subst h'
      exact FrameInv_congr rfl rfl rfl
        (update_inv env _ (modifyCur_inv _ (fun s => rfl) (hbase _)))
    | delete_last =>
      unfold gpencil_curve_draw_modal at hstep
      dsimp only at hstep
      split at hstep
      · injection hstep with h'
        subst h'
        exact FrameInv_congr rfl rfl rfl (update_inv env _ (pop_inv (hbase _)))
      · split at hstep
        all_goals
          injection hstep with h'
          subst h'
          exact FrameInv_congr rfl rfl rfl (update_inv env _ (hbase _))
    | set_thickness =>
      unfold gpencil_curve_draw_modal at hstep
      dsimp only at hstep
      split at hstep
      · split at hstep
        all_goals
          injection hstep with h'
          subst h'
          first
          | exact FrameInv_congr rfl rfl rfl (update_inv env _ (hbase _))
          | exact FrameInv_congr rfl rfl rfl (hbase _)
      · injection hstep with h'
        subst h'
        exact FrameInv_congr rfl rfl rfl (hbase _)
  | left_press mv =>
    unfold gpencil_curve_draw_modal at hstep
    dsimp only at hstep
    split at hstep
    all_goals try split at hstep
    all_goals
      injection hstep with h'
      subst h'
      exact FrameInv_congr rfl rfl rfl (hbase _)
  | left_release mv =>
    unfold gpencil_curve_draw_modal at hstep
    dsimp only at hstep
    split at hstep
    all_goals
      injection hstep with h'
      subst h'
      first
      | exact FrameInv_congr rfl rfl rfl
          (update_inv env _ (modifyCur_inv _ (fun s => rfl) (hbase _)))
      | exact FrameInv_congr rfl rfl rfl (update_inv env _ (hbase _))
  | mousemove mv =>
    unfold gpencil_curve_draw_modal at hstep
    dsimp only at hstep
    split at hstep
    all_goals
      injection hstep with h'
      subst h'
      first
      | exact FrameInv_congr rfl rfl rfl
          (update_inv env _ (modifyCur_inv _ (fun s => rfl) (hbase _)))
      | exact FrameInv_congr rfl rfl rfl (update_inv env _ (hbase _))
  | other mv =>
    unfold gpencil_curve_draw_modal at hstep
    dsimp only at hstep
    injection hstep with h'
    subst h'
    exact FrameInv_congr rfl rfl rfl (hbase _)

/-- Helper: the invariant established at invocation survives any sequence
of events that keeps the tool running. -/
theorem run_inv {pre : List Stroke} (env : Env) :
    ∀ (evs : List Event) (m m' : Model), FrameInv pre m →
      runEvents env m evs = .running m' → FrameInv pre m' := by
  intro evs
  induction evs with
  | nil =>
    intro m m' h hrun
    unfold runEvents at hrun
    injection hrun with h'
    subst h'
    exact h
  | cons ev rest ih =>
    intro m m' h hrun
    unfold runEvents at hrun
    cases hstep : gpencil_curve_draw_modal env m ev with
    | running mm =>
      rw [hstep] at hrun
      exact ih mm m' (step_inv env m mm ev h hstep) hrun
    | finished f =>
      rw [hstep] at hrun
      exact (ModalResult.noConfusion hrun)
    | cancelled f =>
      rw [hstep] at hrun
      exact (ModalResult.noConfusion hrun)

/-- Helper: invocation establishes the frame invariant, provided the new
stroke's identity is fresh for the pre-existing frame. -/
theorem init_inv (env : Env) (pre : List Stroke) (nid : Nat)
    (mval : Int × Int) (pressed : Bool) (hpre : ∀ s ∈ pre, s.sid < nid) :
    FrameInv pre (gpencil_curve_draw_init env pre nid mval pressed) :=
  ⟨_, rfl, rfl, Nat.lt_succ_self _, hpre⟩

/-- C3: issuing the CANCEL modal command at any reachable state of the
curve-draw tool removes the in-progress stroke (and with it its edit
curve) from the active frame and leaves the frame's stroke list exactly
as it was before the tool was invoked; nothing is persisted. -/
theorem curve_draw_cancel_restores_frame (env : Env) (pre : List Stroke)
    (nid : Nat) (mval0 : Int × Int) (pressed : Bool) (evs : List Event)
    (m : Model) (cv : Int × Int)
    (hpre : ∀ s ∈ pre, s.sid < nid)
    (hrun : runEvents env (gpencil_curve_draw_init env pre nid mval0 pressed) evs
      = .running m) :
    gpencil_curve_draw_modal env m (.modal .cancel cv) = .cancelled pre := by
  have hinv := run_inv env evs _ m (init_inv env pre nid mval0 pressed hpre) hrun
  obtain ⟨cur, h1, h2, h3, h4⟩ := hinv
  unfold gpencil_curve_draw_modal
  dsimp only
  congr 1
  show remlink m.frame m.curId = pre
  rw [h1]
  exact remlink_of_inv (fun s hs => h2 ▸ h4 s hs) h2

/-- Helper: the per-state curve refresh keeps the frame shape, the
current stroke's identity and (when the external handle recalculation
preserves point counts) its point count, and does not touch the tool
state. -/
theorem update_frame_spec (env : Env) (mp : Model) (pre : List Stroke) (cur : Stroke)
    (hrec : ∀ c : Curve, (env.recalc c).points.length = c.points.length)
    (h1 : mp.frame = pre ++ [cur])
    (hpre : ∀ s ∈ pre, s.sid < mp.curId) (hcur : cur.sid = mp.curId) :
    ∃ c', (gpencil_curve_draw_update env mp).frame = pre ++ [c']
      ∧ c'.sid = cur.sid
      ∧ c'.curve.points.length = cur.curve.points.length
      ∧ (gpencil_curve_draw_update env mp).tcd = mp.tcd
      ∧ (gpencil_curve_draw_update env mp).curId = mp.curId
      ∧ (gpencil_curve_draw_update env mp).nextId = mp.nextId := by
  unfold gpencil_curve_draw_update
  cases hs : mp.tcd.state
  all_goals dsimp only
  · -- IN_MOVE: anchors follow the cursor, then handles recalculated
    unfold modifyCurve modifyLastPoint modifyCurve modifyCur
    dsimp only
    rw [h1, map_modifyCur_frame pre cur mp.curId _ hpre hcur]
    rw [map_modifyCur_frame pre _ mp.curId _ hpre]
    · refine ⟨_, rfl, rfl, ?_, rfl, rfl, rfl⟩
      dsimp only
      rw [hrec]
      dsimp only
      exact mapLast_length _ _
    · exact hcur
  · exact ⟨cur, h1, rfl, rfl, rfl, rfl, rfl⟩
  · unfold modifyLastPoint modifyCurve modifyCur
    dsimp only
    rw [h1, map_modifyCur_frame pre cur mp.curId _ hpre hcur]
    exact ⟨_, rfl, rfl, mapLast_length _ _, rfl, rfl, rfl⟩
  · unfold modifyLastPoint modifyCurve modifyCur
    dsimp only
    rw [h1, map_modifyCur_frame pre cur mp.curId _ hpre hcur]
    exact ⟨_, rfl, rfl, mapLast_length _ _, rfl, rfl, rfl⟩
  · unfold modifyLastPoint modifyCurve modifyCur
    dsimp only
    rw [h1, map_modifyCur_frame pre cur mp.curId _ hpre hcur]
    exact ⟨_, rfl, rfl, mapLast_length _ _, rfl, rfl, rfl⟩

/-- C9: the DELETE_LAST modal command in MOVE state removes the most
recently committed control point: a fresh duplicate stroke with one fewer
curve point replaces the in-progress stroke at its place (the tail) in
the frame's stroke list, and the tool stays in MOVE; in a drag state the
same command only returns the tool to MOVE — the stroke object and its
point count are untouched. -/
theorem curve_draw_delete_last_spec (env : Env) (pre : List Stroke)
    (nid : Nat) (mval0 cv : Int × Int) (pressed : Bool) (evs : List Event)
    (m : Model)
    (hpre : ∀ s ∈ pre, s.sid < nid)
    (hrec : ∀ c : Curve, (env.recalc c).points.length = c.points.length)
    (hrun : runEvents env (gpencil_curve_draw_init env pre nid mval0 pressed) evs
      = .running m) :
    (m.tcd.state = .move →
      ∃ cur c' m', m.frame = pre ++ [cur]
        ∧ gpencil_curve_draw_modal env m (.modal .delete_last cv) = .running m'
        ∧ m'.tcd.state = .move
        ∧ m'.frame = pre ++ [c']
        ∧ c'.sid ≠ cur.sid
        ∧ c'.curve.points.length = cur.curve.points.length - 1)
    ∧ ((m.tcd.state = .drag_aligned ∨ m.tcd.state = .drag_free) →
      ∃ cur c' m', m.frame = pre ++ [cur]
        ∧ gpencil_curve_draw_modal env m (.modal .delete_last cv) = .running m'
        ∧ m'.tcd.state = .move
        ∧ m'.frame = pre ++ [c']
        ∧ c'.sid = cur.sid
        ∧ c'.curve.points.length = cur.curve.points.length) := by
  have hinv := run_inv env evs _ m (init_inv env pre nid mval0 pressed hpre) hrun
  have hinvb : FrameInv pre { m with tcd := { m.tcd with imval := cv } } :=
    FrameInv_congr rfl rfl rfl hinv
  obtain ⟨cur, hb1, hb2, hbfind⟩ := cur_of_inv hinvb
  obtain ⟨cur0, h01, h02, h3, h4⟩ := hinv
  constructor
  · intro hstate
    have hpop : gpencil_pop_curve_point { m with tcd := { m.tcd with imval := cv } }
        = { m with
            tcd := { m.tcd with imval := cv }
            frame := remlink m.frame m.curId
              ++ [⟨m.nextId, cur.cyclic, ⟨cur.curve.flag, cur.curve.points.dropLast⟩⟩]
            curId := m.nextId
            nextId := m.nextId + 1 } := by
      unfold gpencil_pop_curve_point
      rw [hbfind]
    have hframe_pop : (gpencil_pop_curve_point { m with tcd := { m.tcd with imval := cv } }).frame
        = pre ++ [⟨m.nextId, cur.cyclic, ⟨cur.curve.flag, cur.curve.points.dropLast⟩⟩] := by
      rw [hpop]
      show remlink m.frame m.curId ++ _ = _
      rw [show m.frame = pre ++ [cur] from hb1,
        remlink_of_inv (fun s hs => hb2 ▸ h4 s hs) hb2]
    obtain ⟨c', hf, hsid, hlen, htc, hci, hni⟩ :=
      update_frame_spec env (gpencil_pop_curve_point { m with tcd := { m.tcd with imval := cv } })
        pre ⟨m.nextId, cur.cyclic, ⟨cur.curve.flag, cur.curve.points.dropLast⟩⟩ hrec
        hframe_pop
        (fun s hs => by rw [hpop]; exact lt_trans (h4 s hs) h3)
        (by rw [hpop])
    refine ⟨cur, c',
      setImvalPrev (gpencil_curve_draw_update env (gpencil_pop_curve_point
        { m with tcd := { m.tcd with imval := cv } })), hb1, ?_, ?_, ?_, ?_, ?_⟩
    · unfold gpencil_curve_draw_modal
      dsimp only
      rw [if_pos hstate]
    · show (gpencil_curve_draw_update env _).tcd.state = DrawState.move
      rw [htc, hpop]
      exact hstate
    · exact hf
    · rw [hsid, hb2]
      show m.nextId ≠ m.curId
      exact Nat.ne_of_gt h3
    · rw [hlen]
      show (cur.curve.points.dropLast).length = _
      rw [List.length_dropLast]
  · intro hstate
    have hne : ¬ ({ m with tcd := { m.tcd with imval := cv } }.tcd.state = DrawState.move) := by
      rcases hstate with h | h
      · show ¬ (m.tcd.state = DrawState.move)
        rw [h]
        intro hc
        exact DrawState.noConfusion hc
      · show ¬ (m.tcd.state = DrawState.move)
        rw [h]
        intro hc
        exact DrawState.noConfusion hc
    obtain ⟨c', hf, hsid, hlen, htc, hci, hni⟩ :=
      update_frame_spec env
        { m with tcd := { m.tcd with imval := cv, state := DrawState.move } }
        pre cur hrec hb1 (fun s hs => hb2 ▸ h4 s hs) hb2
    refine ⟨cur, c',
      setImvalPrev (gpencil_curve_draw_update env
        { m with tcd := { m.tcd with imval := cv, state := DrawState.move } }),
      hb1, ?_, ?_, ?_, hsid, hlen⟩
    · unfold gpencil_curve_draw_modal
      dsimp only
      rw [if_neg hne, if_pos hstate]
    · show (gpencil_curve_draw_update env _).tcd.state = DrawState.move
      rw [htc]
    · exact hf

/-- C10: terminating the operator through the operator-level cancel
callback (`gpencil_curve_draw_cancel`, which only runs
`gpencil_curve_draw_exit`) frees the tool state but leaves the frame's
stroke list untouched: the in-progress stroke is still in it, unlike the
CANCEL modal command's path. -/
theorem curve_draw_operator_cancel_keeps_stroke (env : Env) (pre : List Stroke)
    (nid : Nat) (mval0 : Int × Int) (pressed : Bool) (evs : List Event)
    (m : Model)
    (hpre : ∀ s ∈ pre, s.sid < nid)
    (hrun : runEvents env (gpencil_curve_draw_init env pre nid mval0 pressed) evs
      = .running m) :
    gpencil_curve_draw_cancel m = m.frame
    ∧ ∃ cur, m.frame = pre ++ [cur] ∧ cur.sid = m.curId
        ∧ gpencil_curve_draw_cancel m ≠ pre := by
  have hinv := run_inv env evs _ m (init_inv env pre nid mval0 pressed hpre) hrun
  obtain ⟨cur, h1, h2, h3, h4⟩ := hinv
  refine ⟨rfl, cur, h1, h2, ?_⟩
  show m.frame ≠ pre
  rw [h1]
  intro habs
  have hlen := congrArg List.length habs
  simp at hlen

/-- Witness for C3: a frame with one pre-existing stroke, tool invoked and
cancelled immediately: the pre-existing list comes back exactly. -/
theorem curve_draw_cancel_restores_frame_witness :
    gpencil_curve_draw_modal ⟨fun p => ⟨(p.1 : ℚ), (p.2 : ℚ), 0⟩, fun c => c, 30⟩
      (gpencil_curve_draw_init ⟨fun p => ⟨(p.1 : ℚ), (p.2 : ℚ), 0⟩, fun c => c, 30⟩
        [⟨0, false, ⟨0, []⟩⟩] 1 (100, 100) true)
      (.modal .cancel (0, 0))
    = .cancelled [⟨0, false, ⟨0, []⟩⟩] :=
  curve_draw_cancel_restores_frame ⟨fun p => ⟨(p.1 : ℚ), (p.2 : ℚ), 0⟩, fun c => c, 30⟩
    [⟨0, false, ⟨0, []⟩⟩] 1 (100, 100) true [] _ (0, 0) (by decide) rfl

/-- Witness for C9: after one release (committing the first point and
pushing a preview point), DELETE_LAST in MOVE replaces the stroke with a
one-point-shorter fresh duplicate. -/
theorem curve_draw_delete_last_spec_witness :
    ∃ m : Model, runEvents ⟨fun p => ⟨(p.1 : ℚ), (p.2 : ℚ), 0⟩, fun c => c, 30⟩
        (gpencil_curve_draw_init ⟨fun p => ⟨(p.1 : ℚ), (p.2 : ℚ), 0⟩, fun c => c, 30⟩
          [] 0 (100, 100) true)
        [.left_release (120, 100)] = .running m
    ∧ m.tcd.state = .move
    ∧ (∃ cur c' m', m.frame = [] ++ [cur]
        ∧ gpencil_curve_draw_modal ⟨fun p => ⟨(p.1 : ℚ), (p.2 : ℚ), 0⟩, fun c => c, 30⟩
            m (.modal .delete_last (120, 100)) = .running m'
        ∧ m'.tcd.state = .move
        ∧ m'.frame = [] ++ [c']
        ∧ c'.sid ≠ cur.sid
        ∧ c'.curve.points.length = cur.curve.points.length - 1) := by
  refine ⟨_, rfl, by decide, ?_⟩
  exact (curve_draw_delete_last_spec ⟨fun p => ⟨(p.1 : ℚ), (p.2 : ℚ), 0⟩, fun c => c, 30⟩
    [] 0 (100, 100) (120, 100) true [.left_release (120, 100)] _
    (by decide) (fun c => rfl) rfl).1 (by decide)

/-- Witness for C10: operator-level cancel right after invocation leaves
the frame holding the in-progress stroke. -/
theorem curve_draw_operator_cancel_keeps_stroke_witness :
    gpencil_curve_draw_cancel
        (gpencil_curve_draw_init ⟨fun p => ⟨(p.1 : ℚ), (p.2 : ℚ), 0⟩, fun c => c, 30⟩
          [⟨0, false, ⟨0, []⟩⟩] 1 (100, 100) true)
      = (gpencil_curve_draw_init ⟨fun p => ⟨(p.1 : ℚ), (p.2 : ℚ), 0⟩, fun c => c, 30⟩
          [⟨0, false, ⟨0, []⟩⟩] 1 (100, 100) true).frame
    ∧ ∃ cur, (gpencil_curve_draw_init ⟨fun p => ⟨(p.1 : ℚ), (p.2 : ℚ), 0⟩, fun c => c, 30⟩
          [⟨0, false, ⟨0, []⟩⟩] 1 (100, 100) true).frame = [⟨0, false, ⟨0, []⟩⟩] ++ [cur]
        ∧ cur.sid = (gpencil_curve_draw_init ⟨fun p => ⟨(p.1 : ℚ), (p.2 : ℚ), 0⟩, fun c => c, 30⟩
          [⟨0, false, ⟨0, []⟩⟩] 1 (100, 100) true).curId
        ∧ gpencil_curve_draw_cancel
            (gpencil_curve_draw_init ⟨fun p => ⟨(p.1 : ℚ), (p.2 : ℚ), 0⟩, fun c => c, 30⟩
              [⟨0, false, ⟨0, []⟩⟩] 1 (100, 100) true) ≠ [⟨0, false, ⟨0, []⟩⟩] :=
  curve_draw_operator_cancel_keeps_stroke
    ⟨fun p => ⟨(p.1 : ℚ), (p.2 : ℚ), 0⟩, fun c => c, 30⟩
    [⟨0, false, ⟨0, []⟩⟩] 1 (100, 100) true [] _ (by decide) rfl
